import Mathlib

/-!
# NSAT file operations and monitors: a shallow embedding of `src/nsat_files_ops.c`
and `src/nsat_monitors.c`

The C functions are embedded as pure Lean functions over explicit state.

* An input `FILE *` read with `fread(&v, sizeof(unsigned long long), 1, fp)` is an
  `in_stream`: the number of eight-byte words consumed so far and the words still
  to be read.  A read at end of file leaves both the variable and the cursor as
  they were, as `fread` does.
* The C locals `time`, `num_nonzeros`, `core_id`, `neuron_id` are not initialised
  by the source; their initial contents are the `locals` argument.
* Arrays (`core[p]`, `ext_neuron[j]`, `syn_ptr[k]`, `shared_memory[i]`) are lists,
  a singly linked list (`head`, `next`) is the list of its nodes in link order, and
  a pointer into `shared_memory` is the index of the element it points at.
* An output file written with `fwrite(…, sizeof(int), 1, fp)` is the list of its
  four-byte fields read as signed 32-bit integers (little-endian host); an output
  file of eight-byte words is the list of its words.
* A monitor file, whose fields have several widths, is a list of `field`s; the text
  file of `store_fpga_states` is a list of characters.
* A `FILE *` handle kept in a core is the number `fopen` returned, `NULL` is `none`;
  the process-wide `file_table` records the handles opened and closed.
-/

namespace NSAT

/-! ## Data model -/

/-- Node of a synapse list: target neuron id and the position in the core's
shared memory that `w_ptr` points at. -/
structure syn_list_node where
  id : Nat := 0
  w_ptr : Nat := 0
deriving DecidableEq, Repr, Inhabited

/-- State component of a NSAT neuron (`s[k].x`). -/
structure nsat_state where
  x : Int := 0
deriving DecidableEq, Repr, Inhabited

/-- Neuron (external or NSAT): `syn_ptr[k]` is the synapse list of state `k`. -/
structure nsat_neuron where
  syn_ptr : List (List syn_list_node) := []
  s : List nsat_state := []
  is_spk_rec_on : Bool := false
  spk_counter : Nat := 0
deriving DecidableEq, Repr, Inhabited

/-- Core parameters (`core_pms`). -/
structure nsat_params where
  is_ext_evts_on : Bool := false
  num_inputs : Nat := 0
  num_neurons : Nat := 0
  num_states : Nat := 0
  ext_syn_rec_ids : List Nat := []
  nsat_syn_rec_ids : List Nat := []
deriving DecidableEq, Repr, Inhabited

/-- Monitor flags (`mon_pms`). -/
structure monitors_params where
  mon_states : Bool := false
  mon_states_fpga : Bool := false
  mon_weights : Bool := false
  mon_final_weights : Bool := false
deriving DecidableEq, Repr, Inhabited

/-- Synapse counters of a core (`syn`). -/
structure syn_stats where
  tot_ext_syn_num : Int := 0
  tot_nsat_syn_num : Int := 0
deriving DecidableEq, Repr, Inhabited

/-- Recorded spike events (`events`, `mon_events`): the id array, the time array
and the recorded length. -/
structure spk_list where
  array : List Nat := []
  times : List Nat := []
  length : Nat := 0
deriving DecidableEq, Repr, Inhabited

/-- Entry of a pending external-event queue: (neuron id, time, flag). -/
abbrev ext_event := Nat × Nat × Nat

/-- Global parameters (`g_pms`). -/
structure global_params where
  num_cores : Nat := 0
deriving DecidableEq, Repr, Inhabited

/-- Monitor file handles of a core (`files`). -/
structure monitor_files where
  fs : Option Nat := none
  fsa : Option Nat := none
  fw : Option Nat := none
  event_file : Option Nat := none
deriving DecidableEq, Repr, Inhabited

/-- One core (`nsat_core`), with the fields the file operations read or write. -/
structure nsat_core where
  core_pms : nsat_params := {}
  mon_pms : monitors_params := {}
  syn : syn_stats := {}
  ext_neuron : List nsat_neuron := []
  nsat_neuron : List nsat_neuron := []
  ext_events : List ext_event := []
  events : spk_list := {}
  mon_events : spk_list := {}
  shared_memory : List Int := []
  sm_size : Nat := 0
  curr_time : Nat := 0
  g_pms : global_params := {}
  files : monitor_files := {}
deriving DecidableEq, Repr, Inhabited

/-- Input stream of eight-byte words: `pos` words have been consumed, `rest` are
still to be read. -/
structure in_stream where
  pos : Nat := 0
  rest : List Nat := []
deriving DecidableEq, Repr, Inhabited

/-- Contents of the reader's local variables before they are assigned. -/
structure locals where
  time : Nat := 0
  num_nonzeros : Nat := 0
  core_id : Nat := 0
  neuron_id : Nat := 0
deriving DecidableEq, Repr, Inhabited

/-! ## External event readers -/

/-- Embedding of `fread(&v, sizeof(unsigned long long), 1, fp)`: the word read (or the old
content of `v` at end of file) and the stream afterwards. -/
def fread (fp : in_stream) (old : Nat) : Nat × in_stream :=
  match fp.rest with
  | [] => (old, fp)
  | w :: ws => (w, { pos := fp.pos + 1, rest := ws })

/-- Modelled from the spec: `array_list_push` is an external collaborator that is
not part of the sources; it appends the entry (neuron id, time, flag) at the end
of the queue. -/
def array_list_push (q : List ext_event) (neuron_id time flag : Nat) : List ext_event :=
  q ++ [(neuron_id, time, flag)]

/-- The statement `array_list_push(&(*core)[core_id].ext_events, neuron_id, curr_time, 1)`. -/
def push_ext_event (core : List nsat_core) (core_id neuron_id curr_time : Nat) :
    List nsat_core :=
  core.set core_id
    { core.getD core_id default with
      ext_events := array_list_push (core.getD core_id default).ext_events neuron_id curr_time 1 }

/-- The `for (i = 0; i < num_nonzeros; ++i)` loop of `get_external_events`; the first
argument is the number of iterations still to run. -/
def get_external_events_loop (num_cores curr_time time : Nat) :
    Nat → Nat → Nat → in_stream → List nsat_core → in_stream × List nsat_core
  | 0, _, _, fp, core => (fp, core)
  | n + 1, core_id, neuron_id, fp, core =>
    let fp1 := (fread fp core_id).2
    let core_id := (fread fp core_id).1
    if core_id ≥ num_cores then (fp1, core)
    else
      let fp2 := (fread fp1 neuron_id).2
      let neuron_id := (fread fp1 neuron_id).1
      if neuron_id ≥ (core.getD core_id default).core_pms.num_inputs then (fp2, core)
      else
        get_external_events_loop num_cores curr_time time n core_id neuron_id fp2
          (if time = curr_time then push_ext_event core core_id neuron_id curr_time else core)

/-- Embedding of `get_external_events`. -/
def get_external_events (l : locals) (fp : in_stream) (core : List nsat_core)
    (curr_time num_cores : Nat) : in_stream × List nsat_core :=
  if (core.getD 0 default).core_pms.is_ext_evts_on then
    let time := (fread fp l.time).1
    let fp1 := (fread fp l.time).2
    let num_nonzeros := (fread fp1 l.num_nonzeros).1
    let fp2 := (fread fp1 l.num_nonzeros).2
    if num_nonzeros ≠ 0 then
      get_external_events_loop num_cores curr_time time num_nonzeros l.core_id l.neuron_id
        fp2 core
    else (fp2, core)
  else (fp, core)

/-- The `for` loop of `get_external_events_per_core`. -/
def get_external_events_per_core_loop (curr_time time : Nat) :
    Nat → Nat → in_stream → nsat_core → in_stream × nsat_core
  | 0, _, fp, core => (fp, core)
  | n + 1, neuron_id, fp, core =>
    let fp1 := (fread fp neuron_id).2
    let neuron_id := (fread fp neuron_id).1
    if neuron_id ≥ core.core_pms.num_inputs then (fp1, core)
    else
      get_external_events_per_core_loop curr_time time n neuron_id fp1
        (if time = curr_time then
          { core with ext_events := array_list_push core.ext_events neuron_id curr_time 1 }
         else core)

/-- Embedding of `get_external_events_per_core`; a `NULL` file pointer is `none`. -/
def get_external_events_per_core (l : locals) (fp : Option in_stream) (core : nsat_core)
    (curr_time : Nat) : Option in_stream × nsat_core :=
  match fp with
  | none => (none, core)
  | some fp =>
    let time := (fread fp l.time).1
    let fp1 := (fread fp l.time).2
    let num_nonzeros := (fread fp1 l.num_nonzeros).1
    let fp2 := (fread fp1 l.num_nonzeros).2
    if num_nonzeros ≠ 0 then
      ((get_external_events_per_core_loop curr_time time num_nonzeros l.neuron_id fp2 core).1,
       (get_external_events_per_core_loop curr_time time num_nonzeros l.neuron_id fp2 core).2)
    else (some fp2, core)

/-! ## Output writers -/

/-- Result of a writer that opens one output file per core: the contents of the
files written so far, in the order of their core index, and the exit status when
the process was terminated by `exit`. -/
structure outcome (α : Type) where
  files : List α := []
  exit_status : Option Int := none
deriving DecidableEq, Repr

/-- Four bytes read as a signed 32-bit integer: what `fwrite(&v, sizeof(int), 1, fp)`
stores of the value `v`. -/
def toInt32 (v : Int) : Int := (v + 2147483648) % 4294967296 - 2147483648

/-- Embedding of `for (i = a; i < a + n; ++i) body`: the first argument is the number
of iterations still to run, the second the loop variable. -/
def for_loop {σ : Type} (body : Nat → σ → σ) : Nat → Nat → σ → σ
  | 0, _, st => st
  | n + 1, i, st => for_loop body n (i + 1) (body i st)

/-- The list `core->ext_neuron[j].syn_ptr[k]->head`. -/
def ext_syn_list (c : nsat_core) (j k : Nat) : List syn_list_node :=
  ((c.ext_neuron.getD j default).syn_ptr.getD k [])

/-- The list `core->nsat_neuron[j].syn_ptr[k]->head`. -/
def nsat_syn_list (c : nsat_core) (j k : Nat) : List syn_list_node :=
  ((c.nsat_neuron.getD j default).syn_ptr.getD k [])

/-- The four `fwrite(…, sizeof(int), 1, fp)` calls made for one node `ptr` of the list of
external neuron `j`, state `k`: `j`, `tmp = ptr->id + num_inputs`, `k`, and
`add = &core->shared_memory[0] - ptr->w_ptr` (a difference counted in elements, start
of the buffer minus the weight's position). -/
def ext_fields (c : nsat_core) (j k : Nat) (ptr : syn_list_node) : List Int :=
  [toInt32 j, toInt32 (ptr.id + c.core_pms.num_inputs), toInt32 k,
   toInt32 (0 - (ptr.w_ptr : Int))]

/-- The four `fwrite` calls made for one node `ptr` of the list of NSAT neuron `j`, state
`k`: `tmp = j + num_inputs`, `tmp = ptr->id + num_inputs`, `k`, and the four bytes at
`ptr->w_ptr`. -/
def nsat_fields (c : nsat_core) (j k : Nat) (ptr : syn_list_node) : List Int :=
  [toInt32 (j + c.core_pms.num_inputs), toInt32 (ptr.id + c.core_pms.num_inputs),
   toInt32 k, toInt32 (c.shared_memory.getD ptr.w_ptr 0)]

/-- The `while (ptr != NULL)` loop of the external-neuron part of `write_final_weights`. -/
def write_ext_synapses (c : nsat_core) (j k : Nat) : List syn_list_node → List Int → List Int
  | [], fp => fp
  | ptr :: next, fp => write_ext_synapses c j k next (fp ++ ext_fields c j k ptr)

/-- The `while (ptr != NULL)` loop of the NSAT-neuron part of `write_final_weights`. -/
def write_nsat_synapses (c : nsat_core) (j k : Nat) : List syn_list_node → List Int → List Int
  | [], fp => fp
  | ptr :: next, fp => write_nsat_synapses c j k next (fp ++ nsat_fields c j k ptr)

/-- Body of the `p` loop of `write_final_weights` after the file has been opened, for the
core `c` that `core->` denotes: the content of the file. -/
def write_final_weights_body (c : nsat_core) : List Int :=
  let tot : Int := toInt32 (c.syn.tot_ext_syn_num + c.syn.tot_nsat_syn_num)
  let fp : List Int := [tot]
  let fp := for_loop (fun j fp =>
      for_loop (fun k fp => write_ext_synapses c j k (ext_syn_list c j k) fp)
        c.core_pms.num_states 0 fp) c.core_pms.num_inputs 0 fp
  for_loop (fun j fp =>
      for_loop (fun k fp => write_nsat_synapses c j k (nsat_syn_list c j k) fp)
        c.core_pms.num_states 0 fp) c.core_pms.num_neurons 0 fp

/-- The `for (p = 0; p < num_cores; ++p)` loop of `write_final_weights`. `can_open p` tells
whether `fopen` of the `p`-th file name succeeds. Every access in the body is
`core->…`, i.e. to `core[0]`. -/
def write_final_weights_loop (can_open : Nat → Bool) (core : List nsat_core) :
    Nat → Nat → List (List Int) → outcome (List Int)
  | 0, _, files => { files := files }
  | n + 1, p, files =>
    if can_open p then
      write_final_weights_loop can_open core n (p + 1)
        (files ++ [write_final_weights_body (core.getD 0 default)])
    else { files := files, exit_status := some (-1) }

/-- Embedding of `write_final_weights`. -/
def write_final_weights (can_open : Nat → Bool) (core : List nsat_core) (num_cores : Nat) :
    outcome (List Int) :=
  write_final_weights_loop can_open core num_cores 0 []

/-- Embedding of `fwrite(a, sizeof(unsigned long long), n, fp)`: the first `n` words of
the array `a` are appended to the file. -/
def fwrite_words (a : List Nat) (n : Nat) (fp : List Nat) : List Nat := fp ++ a.take n

/-- Body of the `p` loop of `write_spikes_events` after the file has been opened: the id
array, then the time array, each of `events->length` words. -/
def write_spikes_events_body (c : nsat_core) : List Nat :=
  fwrite_words c.events.times c.events.length (fwrite_words c.events.array c.events.length [])

/-- The `for (p = 0; p < num_cores; ++p)` loop of `write_spikes_events`. -/
def write_spikes_events_loop (can_open : Nat → Bool) (core : List nsat_core) :
    Nat → Nat → List (List Nat) → outcome (List Nat)
  | 0, _, files => { files := files }
  | n + 1, p, files =>
    if can_open p then
      write_spikes_events_loop can_open core n (p + 1)
        (files ++ [write_spikes_events_body (core.getD p default)])
    else { files := files, exit_status := some (-1) }

/-- Embedding of `write_spikes_events`. -/
def write_spikes_events (can_open : Nat → Bool) (core : List nsat_core) (num_cores : Nat) :
    outcome (List Nat) :=
  write_spikes_events_loop can_open core num_cores 0 []

/-- Reading `n` eight-byte words from a file: the words read and the rest of the file. -/
def read_words (n : Nat) (file : List Nat) : List Nat × List Nat := (file.take n, file.drop n)

/-! ## Remaining writers of `nsat_files_ops.c` -/

/-- Unsigned 64-bit arithmetic: the value an `unsigned long long` holds after an
addition or subtraction. -/
def toUInt64 (v : Nat) : Nat := v % 18446744073709551616

/-- Memory next to the members of a recorded-event list that `write_spikes_events_online`
reads through `&…->length - 1` and `&…->array`: the eight bytes stored just before the
member `length`, and the eight-byte words stored from the address of the member `array`
on (the first of them is the pointer `array` itself, not an event id). The declaration
of the structure is not part of the sources, so its layout is an argument. -/
structure spk_list_memory where
  before_length : Nat := 0
  from_array : List Nat := []
deriving DecidableEq, Repr, Inhabited

/-- The three `fwrite` calls `write_spikes_events_online` makes for one core: the word at
`&curr_time`, the word at `&mon_events->length - 1` (one element before the member
`length`), and `mon_events->length - 1` words read from `&mon_events->array`. -/
def write_spikes_events_online_body (m : spk_list_memory) (c : nsat_core)
    (event_file : List Nat) : List Nat :=
  let event_file := event_file ++ [c.curr_time]
  let event_file := event_file ++ [m.before_length]
  event_file ++ m.from_array.take (toUInt64 (c.mon_events.length + 18446744073709551615))

/-- Embedding of `write_spikes_events_online`: element `p` of the result is what the call
appends to `core[p].files->event_file`, for `p < core->g_pms->num_cores`. -/
def write_spikes_events_online (mem : Nat → spk_list_memory) (core : List nsat_core) :
    List (List Nat) :=
  for_loop (fun p out => out ++ [write_spikes_events_online_body (mem p) (core.getD p default) []])
    (core.getD 0 default).g_pms.num_cores 0 []

/-- The `for (p = 0; p < num_cores; ++p)` loop of `write_shared_memories`; a file written
is recorded with the index `p` its name is generated from. -/
def write_shared_memories_loop (can_open : Nat → Bool) (core : List nsat_core) :
    Nat → Nat → List (Nat × List Int) → outcome (Nat × List Int)
  | 0, _, files => { files := files }
  | n + 1, p, files =>
    if (core.getD p default).mon_pms.mon_final_weights then
      if can_open p then
        write_shared_memories_loop can_open core n (p + 1)
          (files ++ [(p, ((core.getD p default).shared_memory.take
            (core.getD p default).sm_size).map toInt32)])
      else { files := files, exit_status := some (-1) }
    else write_shared_memories_loop can_open core n (p + 1) files

/-- Embedding of `write_shared_memories`. -/
def write_shared_memories (can_open : Nat → Bool) (core : List nsat_core) (num_cores : Nat) :
    outcome (Nat × List Int) :=
  write_shared_memories_loop can_open core num_cores 0 []

/-- The `j` loop of `write_spike_statistics` for core `p`. -/
def write_spike_statistics_core (c : nsat_core) (fp : List Nat) : List Nat :=
  for_loop (fun j fp => (fp ++ [j]) ++ [(c.nsat_neuron.getD j default).spk_counter])
    c.core_pms.num_neurons 0 fp

/-- Embedding of `write_spike_statistics`; `can_open` tells whether `fopen` of the
statistics file succeeds. When it fails the function prints and returns. -/
def write_spike_statistics (can_open : Bool) (core : List nsat_core) (num_cores : Nat) :
    outcome (List Nat) :=
  if can_open then
    { files := [for_loop (fun p fp => write_spike_statistics_core (core.getD p default) (fp ++ [p]))
        num_cores 0 []] }
  else { files := [] }

/-! ## Monitors (`nsat_monitors.c`) -/

/-- One field of a monitor file, with the width it is written with: `sizeof(int)`,
`sizeof(unsigned int)`, `sizeof(unsigned long long)`, `sizeof(STATETYPE)`,
`sizeof(WTYPE)`. -/
inductive field where
  | i32 (v : Int)
  | u32 (v : Nat)
  | u64 (v : Nat)
  | state (v : Int)
  | weight (v : Int)
deriving DecidableEq, Repr, Inhabited

/-- The value `core->nsat_neuron[j].s[k].x`. -/
def state_x (c : nsat_core) (j k : Nat) : Int :=
  ((c.nsat_neuron.getD j default).s.getD k default).x

/-- The `k` loop shared by the two state monitors: the states of neuron `j`. -/
def write_neuron_states (c : nsat_core) (j : Nat) (fs : List field) : List field :=
  for_loop (fun k fs => fs ++ [field.state (state_x c j k)]) c.core_pms.num_states 0 fs

/-- Embedding of `update_state_monitor_file`: the content of `core->files->fs` after
the call. The time is written with `sizeof(int)` from the `unsigned long long`
`curr_time`. -/
def update_state_monitor_file (c : nsat_core) (fs : List field) : List field :=
  let fs := fs ++ [field.i32 (toInt32 c.curr_time)]
  for_loop (fun j fs => write_neuron_states c j fs) c.core_pms.num_neurons 0 fs

/-- Embedding of `update_state_monitor_online`. -/
def update_state_monitor_online (c : nsat_core) (fs : List field) : List field :=
  let fs := fs ++ [field.i32 (toInt32 c.curr_time)]
  for_loop (fun j fs =>
      if (c.nsat_neuron.getD j default).is_spk_rec_on then write_neuron_states c j fs else fs)
    c.core_pms.num_neurons 0 fs

/-- The `w` least significant hexadecimal digits of `n`, most significant first, in
lower case. -/
def hex_fixed : Nat → Nat → List Char
  | 0, _ => []
  | w + 1, n => hex_fixed w (n / 16) ++ [Nat.digitChar (n % 16)]

/-- Embedding of the conversions `%08x` and `%08llx` of `fprintf` for an unsigned value:
lower-case hexadecimal, padded with zeros to eight digits, longer when the value needs
more digits. -/
def fmt_08x (n : Nat) : List Char :=
  if n < 4294967296 then hex_fixed 8 n else Nat.toDigits 16 n

/-- The four `fprintf` calls of `store_fpga_states` for neuron `j`, state `k`; the formats
are `"%08llx  "`, `"%08llx  "`, `"%08x  "` and `"%08x\n"`, the first three ending in two
spaces. The `int` state value is printed as the `unsigned int` of the same bits. -/
def fpga_line (c : nsat_core) (j k : Nat) : List Char :=
  (fmt_08x c.curr_time ++ [' ', ' ']) ++ (fmt_08x j ++ [' ', ' ']) ++ (fmt_08x k ++ [' ', ' '])
    ++ (fmt_08x ((state_x c j k) % 4294967296).toNat ++ ['\n'])

/-- Embedding of `store_fpga_states`: the content of `core->files->fsa` after the call. -/
def store_fpga_states (c : nsat_core) (fsa : List Char) : List Char :=
  for_loop (fun j fsa => for_loop (fun k fsa => fsa ++ fpga_line c j k) c.core_pms.num_states 0 fsa)
    c.core_pms.num_neurons 0 fsa

/-- The five `fwrite` calls of `update_synaptic_strength_monitor_file` for a match: time,
source, `tmp = tmp + num_inputs`, state, and the weight at `ptr->w_ptr`. -/
def strength_record (c : nsat_core) (src k : Nat) (ptr : syn_list_node) (tmp : Nat) :
    List field :=
  [field.u64 c.curr_time, field.u64 src, field.u64 (toUInt64 (tmp + c.core_pms.num_inputs)),
   field.u32 k, field.weight (c.shared_memory.getD ptr.w_ptr 0)]

/-- The `while (ptr_id != NULL)` loop: every node of the recorded-id list is compared with
the target of the synapse `ptr`, and a record is written at every match. -/
def write_recorded (c : nsat_core) (src k : Nat) (ptr : syn_list_node) :
    List Nat → List field → List field
  | [], fw => fw
  | tmp :: next, fw =>
    write_recorded c src k ptr next
      (if tmp = ptr.id then fw ++ strength_record c src k ptr tmp else fw)

/-- The `while (ptr != NULL)` loop over the synapse list of one presynaptic neuron. -/
def write_strength_synapses (c : nsat_core) (src k : Nat) (rec_ids : List Nat) :
    List syn_list_node → List field → List field
  | [], fw => fw
  | ptr :: next, fw =>
    write_strength_synapses c src k rec_ids next (write_recorded c src k ptr rec_ids fw)

/-- Embedding of `update_synaptic_strength_monitor_file`: the content of
`core->files->fw` after the call. The first pair of nested loops handles the external
neurons (source `i`), the second the NSAT neurons (source `tmp2 = i + num_inputs`). -/
def update_synaptic_strength_monitor_file (c : nsat_core) (fw : List field) : List field :=
  let fw := for_loop (fun k fw =>
      for_loop (fun i fw =>
          write_strength_synapses c i k c.core_pms.ext_syn_rec_ids (ext_syn_list c i k) fw)
        c.core_pms.num_inputs 0 fw) c.core_pms.num_states 0 fw
  for_loop (fun k fw =>
      for_loop (fun i fw =>
          write_strength_synapses c (toUInt64 (i + c.core_pms.num_inputs)) k
            c.core_pms.nsat_syn_rec_ids (nsat_syn_list c i k) fw)
        c.core_pms.num_neurons 0 fw) c.core_pms.num_states 0 fw

/-! ### Monitor file handles -/

/-- The filename templates (members of `fnames`) the monitor files are named from. -/
inductive fname_template where
  | states
  | synw
  | events
deriving DecidableEq, Repr, Inhabited

/-- Name of a file, identified by the arguments it is generated from. -/
abbrev file_name := fname_template × Nat × Nat

/-- Modelled from the spec: `gen_fname` is an external collaborator that is not part of
the sources; the name it returns is keyed by (template, core index, binary-vs-text
selector). -/
def gen_fname (template : fname_template) (p binary : Nat) : file_name := (template, p, binary)

/-- The open files of the process: the handle the next successful `fopen` returns, the
handles returned so far, the handles passed to `fclose` so far, and whether the process
has been terminated. Once `exited` is set nothing has an effect any more. -/
structure file_table where
  next : Nat := 0
  opened : List Nat := []
  closed : List (Option Nat) := []
  exited : Bool := false
deriving DecidableEq, Repr, Inhabited

/-- Embedding of `fopen(name, "wb")`: a fresh handle, or `NULL` when the file cannot be
opened. -/
def fopen (can_open : file_name → Bool) (name : file_name) (t : file_table) :
    Option Nat × file_table :=
  if t.exited then (none, t)
  else if can_open name then
    (some t.next, { t with next := t.next + 1, opened := t.opened ++ [t.next] })
  else (none, t)

/-- Embedding of `fclose(fp)`. -/
def fclose (fp : Option Nat) (t : file_table) : file_table :=
  if t.exited then t else { t with closed := t.closed ++ [fp] }

/-- Modelled from the spec: `file_test` is not part of the sources; a file that could not
be opened terminates the process (failure to open a requested monitor file is fatal). -/
def file_test (fp : Option Nat) (t : file_table) : file_table :=
  match fp with
  | none => { t with exited := true }
  | some _ => t

/-- Embedding of `open_monitor_file`. -/
def open_monitor_file (can_open : file_name → Bool) (fname : file_name) (t : file_table) :
    Option Nat × file_table :=
  ((fopen can_open fname t).1, file_test (fopen can_open fname t).1 (fopen can_open fname t).2)

/-- The assignment `core[p].files->fs = fp`. -/
def set_fs (core : List nsat_core) (p : Nat) (fp : Option Nat) : List nsat_core :=
  core.set p { core.getD p default with files := { (core.getD p default).files with fs := fp } }

/-- The assignment `core[p].files->fsa = fp`. -/
def set_fsa (core : List nsat_core) (p : Nat) (fp : Option Nat) : List nsat_core :=
  core.set p { core.getD p default with files := { (core.getD p default).files with fsa := fp } }

/-- The assignment `core[p].files->fw = fp`. -/
def set_fw (core : List nsat_core) (p : Nat) (fp : Option Nat) : List nsat_core :=
  core.set p { core.getD p default with files := { (core.getD p default).files with fw := fp } }

/-- The assignment `(*cores)[p].files->event_file = fp`. -/
def set_event_file (core : List nsat_core) (p : Nat) (fp : Option Nat) : List nsat_core :=
  core.set p
    { core.getD p default with files := { (core.getD p default).files with event_file := fp } }

/-- Embedding of `open_online_spike_monitor`: one event file per core is opened, and a
failure calls `exit(-1)`. -/
def open_online_spike_monitor (can_open : file_name → Bool)
    (st : List nsat_core × file_table) : List nsat_core × file_table :=
  for_loop (fun p st =>
      if st.2.exited then st
      else
        match (fopen can_open (gen_fname fname_template.events p 1) st.2).1 with
        | none => (set_event_file st.1 p none,
            { (fopen can_open (gen_fname fname_template.events p 1) st.2).2 with exited := true })
        | some fp => (set_event_file st.1 p (some fp),
            (fopen can_open (gen_fname fname_template.events p 1) st.2).2))
    (st.1.getD 0 default).g_pms.num_cores 0 st

/-- Opening one monitor file of core `p` and storing the handle with `set`. -/
def open_and_store (can_open : file_name → Bool) (fname : file_name)
    (set : List nsat_core → Nat → Option Nat → List nsat_core) (p : Nat)
    (st : List nsat_core × file_table) : List nsat_core × file_table :=
  (if (open_monitor_file can_open fname st.2).2.exited then st.1
   else set st.1 p (open_monitor_file can_open fname st.2).1,
   (open_monitor_file can_open fname st.2).2)

/-- Body of the loop of `open_cores_monitor_files`; `davis` tells whether the build has
`DAVIS == 1`, in which case `open_online_spike_monitor` is called in every iteration. -/
def open_cores_monitor_files_body (davis : Bool) (can_open : file_name → Bool) (p : Nat)
    (st : List nsat_core × file_table) : List nsat_core × file_table :=
  let st := if (st.1.getD p default).mon_pms.mon_states then
      open_and_store can_open (gen_fname fname_template.states p 1) set_fs p st else st
  let st := if (st.1.getD p default).mon_pms.mon_states_fpga then
      open_and_store can_open (gen_fname fname_template.states p 0) set_fsa p st else st
  let st := if (st.1.getD p default).mon_pms.mon_weights then
      open_and_store can_open (gen_fname fname_template.synw p 1) set_fw p st else st
  if davis then open_online_spike_monitor can_open st else st

/-- Embedding of `open_cores_monitor_files`. -/
def open_cores_monitor_files (davis : Bool) (can_open : file_name → Bool)
    (core : List nsat_core) (num_cores : Nat) (t : file_table) :
    List nsat_core × file_table :=
  for_loop (open_cores_monitor_files_body davis can_open) num_cores 0 (core, t)

/-- Body of the loop of `close_cores_monitor_files`. -/
def close_cores_monitor_files_body (core : List nsat_core) (p : Nat) (t : file_table) :
    file_table :=
  let t := if (core.getD p default).mon_pms.mon_states then
      fclose (core.getD p default).files.fs t else t
  let t := if (core.getD p default).mon_pms.mon_states_fpga then
      fclose (core.getD p default).files.fsa t else t
  if (core.getD p default).mon_pms.mon_weights then
    fclose (core.getD p default).files.fw t else t

/-- Embedding of `close_cores_monitor_files`. -/
def close_cores_monitor_files (core : List nsat_core) (num_cores : Nat) (t : file_table) :
    file_table :=
  for_loop (close_cores_monitor_files_body core) num_cores 0 t

/-! ## Vocabulary of the statements -/

/-- Words of a multiplexed record group `(time, count, (core_id, neuron_id) × count)`. -/
def record_group (time : Nat) (entries : List (Nat × Nat)) : List Nat :=
  time :: entries.length :: entries.flatMap (fun e => [e.1, e.2])

/-- Words of a single-core record group `(time, count, neuron_id × count)`. -/
def record_group_per_core (time : Nat) (ids : List Nat) : List Nat :=
  time :: ids.length :: ids

/-- Entry `(core_id, neuron_id)` passes both range checks of `get_external_events`. -/
def valid_entry (core : List nsat_core) (num_cores : Nat) (e : Nat × Nat) : Prop :=
  e.1 < num_cores ∧ e.2 < (core.getD e.1 default).core_pms.num_inputs

/-- Pushing the entries one after the other, each on its own core. -/
def push_all (curr_time : Nat) (entries : List (Nat × Nat)) (core : List nsat_core) :
    List nsat_core :=
  entries.foldl (fun cs e => push_ext_event cs e.1 e.2 curr_time) core

/-- Pushing the neuron ids one after the other on a single core. -/
def push_all_per_core (curr_time : Nat) (ids : List Nat) (core : nsat_core) : nsat_core :=
  ids.foldl (fun c n => { c with ext_events := array_list_push c.ext_events n curr_time 1 }) core

/-- Queue entries the stream entries addressed to core `c` give rise to. -/
def events_for (c curr_time : Nat) (entries : List (Nat × Nat)) : List ext_event :=
  (entries.filter (fun e => e.1 = c)).map (fun e => (e.2, curr_time, 1))

/-- Relation between the cores before and after a read: every core keeps its parameters,
and its queue has only grown by entries stamped `curr_time` whose neuron id is below the
core's `num_inputs`; cores of index `num_cores` or more have not grown at all. -/
def grown_by_valid (num_cores curr_time : Nat) (core core' : List nsat_core) : Prop :=
  ∀ c, (core'.getD c default).core_pms = (core.getD c default).core_pms ∧
    ∃ added : List ext_event,
      (core'.getD c default).ext_events = (core.getD c default).ext_events ++ added ∧
      (∀ q ∈ added, q.2.1 = curr_time ∧ q.1 < (core.getD c default).core_pms.num_inputs) ∧
      (num_cores ≤ c → added = [])

/-- Single-core form of `grown_by_valid`. -/
def grown_by_valid_per_core (curr_time : Nat) (core core' : nsat_core) : Prop :=
  core'.core_pms = core.core_pms ∧
    ∃ added : List ext_event,
      core'.ext_events = core.ext_events ++ added ∧
      (∀ q ∈ added, q.2.1 = curr_time ∧ q.1 < core.core_pms.num_inputs)


instance (core : List nsat_core) (num_cores : Nat) (e : Nat × Nat) :
    Decidable (valid_entry core num_cores e) :=
  inferInstanceAs (Decidable (_ ∧ _))

/-- Two cores used in the examples: core 0 has external events enabled and two inputs,
core 1 has its flag clear and one input. -/
def two_cores : List nsat_core :=
  [{ core_pms := { is_ext_evts_on := true, num_inputs := 2 } },
   { core_pms := { is_ext_evts_on := false, num_inputs := 1 } }]

/-- A single core with two inputs, used in the examples. -/
def one_core : nsat_core := { core_pms := { is_ext_evts_on := true, num_inputs := 2 } }


/-- Number of synapse records in all (external neuron, state) lists of a core. -/
def ext_syn_count (c : nsat_core) : Nat :=
  ((List.range c.core_pms.num_inputs).map fun j =>
    ((List.range c.core_pms.num_states).map fun k => (ext_syn_list c j k).length).sum).sum

/-- Number of synapse records in all (NSAT neuron, state) lists of a core. -/
def nsat_syn_count (c : nsat_core) : Nat :=
  ((List.range c.core_pms.num_neurons).map fun j =>
    ((List.range c.core_pms.num_states).map fun k => (nsat_syn_list c j k).length).sum).sum

/-- Records of the external neurons in the order of the final-weights file: input neuron
`j` ascending, state `k` ascending, list order; the record of a synapse is
`(j, target_id + num_inputs, k, -i)` where `i` is the element of shared memory its weight
reference points at. -/
def ext_records (c : nsat_core) : List (Int × Int × Int × Int) :=
  (List.range c.core_pms.num_inputs).flatMap fun j =>
    (List.range c.core_pms.num_states).flatMap fun k =>
      ((c.ext_neuron.getD j default).syn_ptr.getD k []).map fun s =>
        ((j : Int), ((s.id + c.core_pms.num_inputs : Nat) : Int), (k : Int),
          -(s.w_ptr : Int))

/-- Records of the NSAT neurons in the order of the final-weights file: NSAT neuron `j`
ascending, state `k` ascending, list order; the record of a synapse is
`(j + num_inputs, target_id + num_inputs, k, weight)`, the weight being the value stored
where the synapse's weight reference points. -/
def nsat_records (c : nsat_core) : List (Int × Int × Int × Int) :=
  (List.range c.core_pms.num_neurons).flatMap fun j =>
    (List.range c.core_pms.num_states).flatMap fun k =>
      ((c.nsat_neuron.getD j default).syn_ptr.getD k []).map fun s =>
        (((j + c.core_pms.num_inputs : Nat) : Int), ((s.id + c.core_pms.num_inputs : Nat) : Int),
          (k : Int), c.shared_memory.getD s.w_ptr 0)

/-- The four fields of a record, in file order. -/
def record_fields (r : Int × Int × Int × Int) : List Int := [r.1, r.2.1, r.2.2.1, r.2.2.2]


/-- Core of the scenario of the final-weights file: two inputs, one state, a single
synapse from external neuron 0, state 0, to target id 5, whose weight 42 is the first
element of shared memory. -/
def scenario_core : nsat_core :=
  { core_pms := { num_inputs := 2, num_states := 1 }
    syn := { tot_ext_syn_num := 1 }
    ext_neuron := [{ syn_ptr := [[{ id := 5, w_ptr := 0 }]] }, { syn_ptr := [[]] }]
    shared_memory := [42]
    sm_size := 1 }

/-- The scenario of the final-weights file with the weight 42 of the single synapse stored
in the second element of shared memory. -/
def scenario_core_second_element : nsat_core :=
  { core_pms := { num_inputs := 2, num_states := 1 }
    syn := { tot_ext_syn_num := 1 }
    ext_neuron := [{ syn_ptr := [[{ id := 5, w_ptr := 1 }]] }, { syn_ptr := [[]] }]
    shared_memory := [0, 42]
    sm_size := 2 }

/-- Core with two inputs, two NSAT neurons and two states, whose eight synapses are spread
over the lists; its counters agree with its lists. -/
def ordering_core : nsat_core :=
  { core_pms := { num_inputs := 2, num_neurons := 2, num_states := 2 }
    syn := { tot_ext_syn_num := 4, tot_nsat_syn_num := 4 }
    ext_neuron :=
      [{ syn_ptr := [[{ id := 5, w_ptr := 3 }, { id := 6, w_ptr := 1 }],
                     [{ id := 7, w_ptr := 2 }]] },
       { syn_ptr := [[], [{ id := 5, w_ptr := 0 }]] }]
    nsat_neuron :=
      [{ syn_ptr := [[{ id := 0, w_ptr := 1 }],
                     [{ id := 1, w_ptr := 0 }, { id := 0, w_ptr := 2 }]] },
       { syn_ptr := [[{ id := 1, w_ptr := 3 }], []] }]
    shared_memory := [10, -20, 30, 40]
    sm_size := 4 }

/-- Core with one external synapse (weight at element 1 of shared memory) and one NSAT
synapse (weight at element 0); its counters agree with its lists. -/
def core_a : nsat_core :=
  { core_pms := { num_inputs := 2, num_neurons := 1, num_states := 1 }
    syn := { tot_ext_syn_num := 1, tot_nsat_syn_num := 1 }
    ext_neuron := [{ syn_ptr := [[{ id := 5, w_ptr := 1 }]] }, { syn_ptr := [[]] }]
    nsat_neuron := [{ syn_ptr := [[{ id := 0, w_ptr := 0 }]] }]
    shared_memory := [42, 43]
    sm_size := 2 }

/-- Core of the same shape as `core_a` without any synapse; its counters are zero. -/
def core_b : nsat_core :=
  { core_pms := { num_inputs := 2, num_neurons := 1, num_states := 1 }
    ext_neuron := [{ syn_ptr := [[]] }, { syn_ptr := [[]] }]
    nsat_neuron := [{ syn_ptr := [[]] }]
    shared_memory := [0, 0]
    sm_size := 2 }

/-- Core whose recorded events have ids `[3, 7]` and times `[10, 20]`. -/
def spikes_core : nsat_core :=
  { events := { array := [3, 7], times := [10, 20], length := 2 } }


/-! ### Vocabulary of the statements on the monitors -/

/-- State values of neuron `j`, state index ascending. -/
def neuron_states (c : nsat_core) (j : Nat) : List field :=
  (List.range c.core_pms.num_states).map fun k => field.state (state_x c j k)

/-- The record of the state monitor restricted to the neurons whose spike-recording flag
is set: the time field, then the state values of exactly the flagged neurons, in neuron
order. -/
def flagged_state_record (c : nsat_core) : List field :=
  field.i32 (toInt32 c.curr_time) ::
    ((List.range c.core_pms.num_neurons).filter
      fun j => (c.nsat_neuron.getD j default).is_spk_rec_on).flatMap fun j =>
        (List.range c.core_pms.num_states).map fun k =>
          field.state ((c.nsat_neuron.getD j default).s.getD k default).x

/-- The lines of `store_fpga_states`, one per (neuron, state), neuron-major. -/
def fpga_lines (c : nsat_core) : List (List Char) :=
  (List.range c.core_pms.num_neurons).flatMap fun j =>
    (List.range c.core_pms.num_states).map fun k => fpga_line c j k

/-- Record of the synaptic strength monitor: (time, source, destination, state, weight). -/
abbrev strength_rec := Nat × Nat × Nat × Nat × Int

/-- The five fields of a record of the synaptic strength monitor, in file order. -/
def strength_fields (r : strength_rec) : List field :=
  [field.u64 r.1, field.u64 r.2.1, field.u64 r.2.2.1, field.u32 r.2.2.2.1,
   field.weight r.2.2.2.2]

/-- Record of the synapse `s` of presynaptic neuron `i`, state `k`, with source id `src`:
`(curr_time, src, target_id + num_inputs, k, weight at the weight reference)`. -/
def strength_rec_of (c : nsat_core) (src k : Nat) (s : syn_list_node) : strength_rec :=
  (c.curr_time, src, s.id + c.core_pms.num_inputs, k, c.shared_memory.getD s.w_ptr 0)

/-- Records of the external neurons, one for every occurrence of the synapse's target id
in the external recorded-id list; state outermost, then presynaptic neuron, then list
order. -/
def ext_strength_records (c : nsat_core) : List strength_rec :=
  (List.range c.core_pms.num_states).flatMap fun k =>
    (List.range c.core_pms.num_inputs).flatMap fun i =>
      (ext_syn_list c i k).flatMap fun s =>
        List.replicate (c.core_pms.ext_syn_rec_ids.count s.id) (strength_rec_of c i k s)

/-- Records of the NSAT neurons, one for every occurrence of the synapse's target id in
the NSAT recorded-id list. -/
def nsat_strength_records (c : nsat_core) : List strength_rec :=
  (List.range c.core_pms.num_states).flatMap fun k =>
    (List.range c.core_pms.num_neurons).flatMap fun i =>
      (nsat_syn_list c i k).flatMap fun s =>
        List.replicate (c.core_pms.nsat_syn_rec_ids.count s.id)
          (strength_rec_of c (i + c.core_pms.num_inputs) k s)

/-- Exactly one record for each external synapse whose target id appears in the external
recorded-id list. -/
def ext_listed_records (c : nsat_core) : List strength_rec :=
  (List.range c.core_pms.num_states).flatMap fun k =>
    (List.range c.core_pms.num_inputs).flatMap fun i =>
      ((ext_syn_list c i k).filter fun s => s.id ∈ c.core_pms.ext_syn_rec_ids).map
        (strength_rec_of c i k)

/-- Exactly one record for each NSAT synapse whose target id appears in the NSAT
recorded-id list. -/
def nsat_listed_records (c : nsat_core) : List strength_rec :=
  (List.range c.core_pms.num_states).flatMap fun k =>
    (List.range c.core_pms.num_neurons).flatMap fun i =>
      ((nsat_syn_list c i k).filter fun s => s.id ∈ c.core_pms.nsat_syn_rec_ids).map
        (strength_rec_of c (i + c.core_pms.num_inputs) k)

/-- Number of synapses whose target id appears in the recorded-id list of their kind. -/
def listed_synapse_count (c : nsat_core) : Nat :=
  ((List.range c.core_pms.num_states).map fun k =>
    ((List.range c.core_pms.num_inputs).map fun i =>
      ((ext_syn_list c i k).filter fun s => s.id ∈ c.core_pms.ext_syn_rec_ids).length).sum).sum
  + ((List.range c.core_pms.num_states).map fun k =>
    ((List.range c.core_pms.num_neurons).map fun i =>
      ((nsat_syn_list c i k).filter fun s => s.id ∈ c.core_pms.nsat_syn_rec_ids).length).sum).sum

/-- The words of the statistics file for core `p`: the core index, then the pairs
(neuron id, spike counter). -/
def spike_statistics_of (core : List nsat_core) (p : Nat) : List Nat :=
  p :: (List.range (core.getD p default).core_pms.num_neurons).flatMap fun j =>
    [j, ((core.getD p default).nsat_neuron.getD j default).spk_counter]

/-- Core used in the examples on the monitors: two inputs, two NSAT neurons with one state
each, of which only the first is flagged for spike recording; one external synapse to
target 5 and one NSAT synapse to target 0; time 5. -/
def monitor_core : nsat_core :=
  { core_pms := { num_inputs := 2, num_neurons := 2, num_states := 1,
                  ext_syn_rec_ids := [5], nsat_syn_rec_ids := [0] }
    ext_neuron := [{ syn_ptr := [[{ id := 5, w_ptr := 1 }]] }, { syn_ptr := [[]] }]
    nsat_neuron :=
      [{ syn_ptr := [[{ id := 0, w_ptr := 0 }, { id := 1, w_ptr := 1 }]], s := [{ x := 42 }],
         is_spk_rec_on := true, spk_counter := 9 },
       { syn_ptr := [[]], s := [{ x := -1 }], spk_counter := 4 }]
    shared_memory := [42, 43]
    sm_size := 2
    curr_time := 5
    mon_pms := { mon_final_weights := true }
    mon_events := { array := [3, 7], length := 2 }
    g_pms := { num_cores := 1 } }

/-- The core `monitor_core` with both NSAT neurons flagged for spike recording. -/
def monitor_core_all_flagged : nsat_core :=
  { monitor_core with
    nsat_neuron := monitor_core.nsat_neuron.map fun n => { n with is_spk_rec_on := true } }

/-- The core `monitor_core` with no NSAT neuron flagged for spike recording. -/
def monitor_core_none_flagged : nsat_core :=
  { monitor_core with
    nsat_neuron := monitor_core.nsat_neuron.map fun n => { n with is_spk_rec_on := false } }

/-- The core `monitor_core` with the target id 5 listed twice in the external recorded-id
list. -/
def monitor_core_repeated : nsat_core :=
  { monitor_core with
    core_pms := { monitor_core.core_pms with ext_syn_rec_ids := [5, 5] } }

/-- Two cores with monitor flags: states and weights for core 0, FPGA states for core 1. -/
def flagged_cores : List nsat_core :=
  [{ mon_pms := { mon_states := true, mon_weights := true }, g_pms := { num_cores := 2 } },
   { mon_pms := { mon_states_fpga := true }, g_pms := { num_cores := 2 } }]

/-- The handles `close_cores_monitor_files` passes to `fclose` for one core: those kept in
`fs`, `fsa` and `fw`, each when its flag is set. -/
def closed_handles (c : nsat_core) : List (Option Nat) :=
  (if c.mon_pms.mon_states then [c.files.fs] else [])
    ++ (if c.mon_pms.mon_states_fpga then [c.files.fsa] else [])
    ++ (if c.mon_pms.mon_weights then [c.files.fw] else [])

/-- Fields the synaptic strength monitor writes for the external presynaptic neurons and
state `k`: neuron index ascending, synapse-list order, one record per match. -/
def ext_state_block (c : nsat_core) (k : Nat) : List field :=
  (List.range c.core_pms.num_inputs).flatMap fun i =>
    (ext_syn_list c i k).flatMap fun s =>
      (List.replicate (c.core_pms.ext_syn_rec_ids.count s.id)
        (strength_record c i k s s.id)).flatten

/-- Fields the synaptic strength monitor writes for the NSAT presynaptic neurons and
state `k`. -/
def nsat_state_block (c : nsat_core) (k : Nat) : List field :=
  (List.range c.core_pms.num_neurons).flatMap fun i =>
    (nsat_syn_list c i k).flatMap fun s =>
      (List.replicate (c.core_pms.nsat_syn_rec_ids.count s.id)
        (strength_record c (toUInt64 (i + c.core_pms.num_inputs)) k s s.id)).flatten

/-- The order state by state: for each state `k` ascending, the records of the external
neurons for state `k`, then the records of the NSAT neurons for state `k`. -/
def state_by_state_order (c : nsat_core) : List field :=
  (List.range c.core_pms.num_states).flatMap fun k =>
    ext_state_block c k ++ nsat_state_block c k

/-- Core with two states: the external neuron 0 has a synapse to the recorded target 5 in
state 1, the NSAT neuron 0 has a synapse to the recorded target 0 in state 0. -/
def two_state_core : nsat_core :=
  { core_pms := { num_inputs := 2, num_neurons := 1, num_states := 2,
                  ext_syn_rec_ids := [5], nsat_syn_rec_ids := [0] }
    ext_neuron := [{ syn_ptr := [[], [{ id := 5, w_ptr := 1 }]] }, { syn_ptr := [[], []] }]
    nsat_neuron := [{ syn_ptr := [[{ id := 0, w_ptr := 0 }], []] }]
    shared_memory := [42, 43]
    sm_size := 2
    curr_time := 5 }

/-! ## The external event readers -/

theorem getD_push_ext_event (core : List nsat_core) (cid nid t i : Nat) :
    (push_ext_event core cid nid t).getD i default =
      if i = cid ∧ cid < core.length then
        { core.getD cid default with
          ext_events := (core.getD cid default).ext_events ++ [(nid, t, 1)] }
      else core.getD i default := by
  unfold push_ext_event array_list_push
  simp only [List.getD_eq_getElem?_getD, List.getElem?_set]
  by_cases h : cid = i
  · subst h
    by_cases hl : cid < core.length
    · simp [hl]
    · simp [hl, List.getElem?_eq_none (Nat.le_of_not_lt hl)]
  · have h' : ¬ i = cid := fun e => h e.symm
    simp [h, h']

theorem core_pms_push_ext_event (core : List nsat_core) (cid nid t i : Nat) :
    ((push_ext_event core cid nid t).getD i default).core_pms
      = (core.getD i default).core_pms := by
  rw [getD_push_ext_event]
  split
  · next h => rw [h.1]
  · rfl

theorem length_push_ext_event (core : List nsat_core) (cid nid t : Nat) :
    (push_ext_event core cid nid t).length = core.length := by
  simp [push_ext_event]

theorem valid_entry_push (core : List nsat_core) (nc cid nid t : Nat) (e : Nat × Nat) :
    valid_entry (push_ext_event core cid nid t) nc e ↔ valid_entry core nc e := by
  unfold valid_entry
  rw [core_pms_push_ext_event]

theorem push_all_cons (t : Nat) (e : Nat × Nat) (es : List (Nat × Nat))
    (core : List nsat_core) :
    push_all t (e :: es) core = push_all t es (push_ext_event core e.1 e.2 t) := rfl

theorem length_push_all (t : Nat) (es : List (Nat × Nat)) (core : List nsat_core) :
    (push_all t es core).length = core.length := by
  induction es generalizing core with
  | nil => rfl
  | cons e es ih => rw [push_all_cons, ih, length_push_ext_event]

theorem core_pms_push_all (t : Nat) (es : List (Nat × Nat)) (core : List nsat_core) (i : Nat) :
    ((push_all t es core).getD i default).core_pms = (core.getD i default).core_pms := by
  induction es generalizing core with
  | nil => rfl
  | cons e es ih => rw [push_all_cons, ih, core_pms_push_ext_event]

/-- Queue of core `c` after pushing entries that all address existing cores. -/
theorem ext_events_push_all (t : Nat) (es : List (Nat × Nat)) (core : List nsat_core)
    (c : Nat) (h : ∀ e ∈ es, e.1 < core.length) :
    ((push_all t es core).getD c default).ext_events
      = (core.getD c default).ext_events ++ events_for c t es := by
  induction es generalizing core with
  | nil => simp [push_all, events_for]
  | cons e es ih =>
    have he : e.1 < core.length := h e (List.mem_cons_self _ _)
    rw [push_all_cons, ih]
    · rw [getD_push_ext_event]
      by_cases hc : e.1 = c
      · subst hc
        simp [events_for, he, List.filter_cons]
      · have hc' : ¬ c = e.1 := fun x => hc x.symm
        simp [events_for, hc, hc', List.filter_cons]
    · intro e' he'
      rw [length_push_ext_event]
      exact h e' (List.mem_cons_of_mem _ he')

/-- The loop of `get_external_events` on a run of valid entries: they are consumed, two
words each, and pushed when `time = curr_time`; the loop goes on with the rest. -/
theorem get_external_events_loop_valid (nc ct t : Nat) (pre : List (Nat × Nat)) :
    ∀ (n cid nid pos : Nat) (tail : List Nat) (core : List nsat_core),
      (∀ e ∈ pre, valid_entry core nc e) →
      ∃ cid' nid',
        get_external_events_loop nc ct t (pre.length + n) cid nid
            ⟨pos, pre.flatMap (fun e => [e.1, e.2]) ++ tail⟩ core
          = get_external_events_loop nc ct t n cid' nid' ⟨pos + 2 * pre.length, tail⟩
              (if t = ct then push_all ct pre core else core) := by
  induction pre with
  | nil =>
    intro n cid nid pos tail core _
    exact ⟨cid, nid, by simp [push_all]⟩
  | cons e pre ih =>
    intro n cid nid pos tail core hv
    have he : valid_entry core nc e := hv e (List.mem_cons_self _ _)
    have hlen : (e :: pre).length + n = (pre.length + n) + 1 := by
      simp only [List.length_cons]; omega
    have hv' : ∀ e' ∈ pre, valid_entry
        (if t = ct then push_ext_event core e.1 e.2 ct else core) nc e' := by
      intro e' he'
      split
      · exact (valid_entry_push core nc e.1 e.2 ct e').2 (hv e' (List.mem_cons_of_mem _ he'))
      · exact hv e' (List.mem_cons_of_mem _ he')
    obtain ⟨cid', nid', h⟩ := ih n e.1 e.2 (pos + 1 + 1) tail _ hv'
    refine ⟨cid', nid', ?_⟩
    rw [hlen, get_external_events_loop]
    simp only [fread, List.flatMap_cons, List.cons_append, List.nil_append, ge_iff_le]
    rw [if_neg (Nat.not_le_of_lt he.1), if_neg (Nat.not_le_of_lt he.2), h]
    have hp : pos + 1 + 1 + 2 * pre.length = pos + 2 * (e :: pre).length := by
      simp only [List.length_cons]; omega
    rw [hp]
    by_cases htc : t = ct
    · simp [htc, push_all_cons]
    · simp [htc]

/-- The whole of `get_external_events` on a group of valid entries. -/
theorem get_external_events_valid_eq (l : locals) (pos : Nat) (rest : List Nat)
    (core : List nsat_core) (ct nc t : Nat) (entries : List (Nat × Nat))
    (hon : (core.getD 0 default).core_pms.is_ext_evts_on = true)
    (hv : ∀ e ∈ entries, valid_entry core nc e) :
    get_external_events l ⟨pos, record_group t entries ++ rest⟩ core ct nc
      = (⟨pos + (2 + 2 * entries.length), rest⟩,
         if t = ct then push_all ct entries core else core) := by
  unfold get_external_events record_group
  simp only [hon, if_true, fread, List.cons_append]
  by_cases h0 : entries.length = 0
  · have : entries = [] := List.length_eq_zero.mp h0
    subst this
    simp [push_all]
  · rw [if_pos h0]
    obtain ⟨cid', nid', h⟩ :=
      get_external_events_loop_valid nc ct t entries 0 l.core_id l.neuron_id (pos + 1 + 1)
        rest core hv
    rw [Nat.add_zero] at h
    rw [h, get_external_events_loop]
    have hp : pos + 1 + 1 + 2 * entries.length = pos + (2 + 2 * entries.length) := by omega
    rw [hp]

/-- The loop of `get_external_events` stops at an invalid entry without pushing it. -/
theorem get_external_events_loop_invalid (nc ct t n cid nid pos : Nat) (bad : Nat × Nat)
    (tail : List Nat) (core : List nsat_core) (hbad : ¬ valid_entry core nc bad) :
    (get_external_events_loop nc ct t (n + 1) cid nid ⟨pos, bad.1 :: bad.2 :: tail⟩ core).2
      = core := by
  rw [get_external_events_loop]
  simp only [fread, ge_iff_le]
  by_cases h1 : nc ≤ bad.1
  · rw [if_pos h1]
  · rw [if_neg h1]
    have h2 : (core.getD bad.1 default).core_pms.num_inputs ≤ bad.2 := by
      by_contra h
      exact hbad ⟨Nat.lt_of_not_le h1, Nat.lt_of_not_le h⟩
    rw [if_pos h2]

/-- Cores after `get_external_events` on a group whose first invalid entry is `bad`. -/
theorem get_external_events_first_invalid (l : locals) (pos : Nat) (rest : List Nat)
    (core : List nsat_core) (ct nc t : Nat) (pre post : List (Nat × Nat)) (bad : Nat × Nat)
    (hon : (core.getD 0 default).core_pms.is_ext_evts_on = true)
    (hv : ∀ e ∈ pre, valid_entry core nc e) (hbad : ¬ valid_entry core nc bad) :
    (get_external_events l ⟨pos, record_group t (pre ++ bad :: post) ++ rest⟩ core ct nc).2
      = if t = ct then push_all ct pre core else core := by
  unfold get_external_events record_group
  simp only [hon, if_true, fread, List.cons_append]
  have h0 : (pre ++ bad :: post).length ≠ 0 := by simp
  rw [if_pos h0]
  have hlen : (pre ++ bad :: post).length = pre.length + (post.length + 1) := by simp
  obtain ⟨cid', nid', h⟩ :=
    get_external_events_loop_valid nc ct t pre (post.length + 1) l.core_id l.neuron_id
      (pos + 1 + 1) (bad.1 :: bad.2 :: (post.flatMap (fun e => [e.1, e.2]) ++ rest)) core hv
  have hfl : (pre ++ bad :: post).flatMap (fun e => [e.1, e.2]) ++ rest
      = pre.flatMap (fun e => [e.1, e.2])
          ++ bad.1 :: bad.2 :: (post.flatMap (fun e => [e.1, e.2]) ++ rest) := by
    simp [List.flatMap_append, List.flatMap_cons]
  rw [hlen, hfl, h]
  apply get_external_events_loop_invalid
  intro hb
  apply hbad
  unfold valid_entry at hb ⊢
  split at hb
  · rwa [core_pms_push_all] at hb
  · exact hb

theorem push_all_per_core_cons (t n : Nat) (ids : List Nat) (core : nsat_core) :
    push_all_per_core t (n :: ids) core
      = push_all_per_core t ids
          { core with ext_events := array_list_push core.ext_events n t 1 } := rfl

theorem core_pms_push_all_per_core (t : Nat) (ids : List Nat) (core : nsat_core) :
    (push_all_per_core t ids core).core_pms = core.core_pms := by
  induction ids generalizing core with
  | nil => rfl
  | cons n ids ih => rw [push_all_per_core_cons, ih]

theorem ext_events_push_all_per_core (t : Nat) (ids : List Nat) (core : nsat_core) :
    (push_all_per_core t ids core).ext_events
      = core.ext_events ++ ids.map (fun n => (n, t, 1)) := by
  induction ids generalizing core with
  | nil => simp [push_all_per_core]
  | cons n ids ih => rw [push_all_per_core_cons, ih]; simp [array_list_push]

/-- The loop of `get_external_events_per_core` on a run of valid neuron ids. -/
theorem get_external_events_per_core_loop_valid (ct t : Nat) (pre : List Nat) :
    ∀ (n nid pos : Nat) (tail : List Nat) (core : nsat_core),
      (∀ x ∈ pre, x < core.core_pms.num_inputs) →
      ∃ nid',
        get_external_events_per_core_loop ct t (pre.length + n) nid ⟨pos, pre ++ tail⟩ core
          = get_external_events_per_core_loop ct t n nid' ⟨pos + pre.length, tail⟩
              (if t = ct then push_all_per_core ct pre core else core) := by
  induction pre with
  | nil =>
    intro n nid pos tail core _
    exact ⟨nid, by simp [push_all_per_core]⟩
  | cons x pre ih =>
    intro n nid pos tail core hv
    have hx : x < core.core_pms.num_inputs := hv x (List.mem_cons_self _ _)
    have hlen : (x :: pre).length + n = (pre.length + n) + 1 := by
      simp only [List.length_cons]; omega
    have hv' : ∀ y ∈ pre, y < (if t = ct then
        { core with ext_events := array_list_push core.ext_events x ct 1 }
        else core).core_pms.num_inputs := by
      intro y hy
      split
      · exact hv y (List.mem_cons_of_mem _ hy)
      · exact hv y (List.mem_cons_of_mem _ hy)
    obtain ⟨nid', h⟩ := ih n x (pos + 1) tail _ hv'
    refine ⟨nid', ?_⟩
    rw [hlen, get_external_events_per_core_loop]
    simp only [fread, List.cons_append, ge_iff_le]
    rw [if_neg (Nat.not_le_of_lt hx), h]
    have hp : pos + 1 + pre.length = pos + (x :: pre).length := by
      simp only [List.length_cons]; omega
    rw [hp]
    by_cases htc : t = ct
    · simp [htc, push_all_per_core_cons]
    · simp [htc]

/-- The whole of `get_external_events_per_core` on a group of valid neuron ids. -/
theorem get_external_events_per_core_valid_eq (l : locals) (pos : Nat) (rest : List Nat)
    (core : nsat_core) (ct t : Nat) (ids : List Nat)
    (hv : ∀ x ∈ ids, x < core.core_pms.num_inputs) :
    get_external_events_per_core l (some ⟨pos, record_group_per_core t ids ++ rest⟩) core ct
      = (some ⟨pos + (2 + ids.length), rest⟩,
         if t = ct then push_all_per_core ct ids core else core) := by
  unfold get_external_events_per_core record_group_per_core
  simp only [fread, List.cons_append]
  by_cases h0 : ids.length = 0
  · have : ids = [] := List.length_eq_zero.mp h0
    subst this
    simp [push_all_per_core]
  · rw [if_pos h0]
    obtain ⟨nid', h⟩ :=
      get_external_events_per_core_loop_valid ct t ids 0 l.neuron_id (pos + 1 + 1) rest core hv
    rw [Nat.add_zero] at h
    rw [h, get_external_events_per_core_loop]
    have hp : pos + 1 + 1 + ids.length = pos + (2 + ids.length) := by omega
    rw [hp]

/-- Core after `get_external_events_per_core` on a group whose first invalid id is `bad`. -/
theorem get_external_events_per_core_first_invalid (l : locals) (pos : Nat)
    (rest : List Nat) (core : nsat_core) (ct t : Nat) (pre post : List Nat) (bad : Nat)
    (hv : ∀ x ∈ pre, x < core.core_pms.num_inputs)
    (hbad : core.core_pms.num_inputs ≤ bad) :
    (get_external_events_per_core l
        (some ⟨pos, record_group_per_core t (pre ++ bad :: post) ++ rest⟩) core ct).2
      = if t = ct then push_all_per_core ct pre core else core := by
  unfold get_external_events_per_core record_group_per_core
  simp only [fread, List.cons_append]
  have h0 : (pre ++ bad :: post).length ≠ 0 := by simp
  rw [if_pos h0]
  have hlen : (pre ++ bad :: post).length = pre.length + (post.length + 1) := by simp
  obtain ⟨nid', h⟩ :=
    get_external_events_per_core_loop_valid ct t pre (post.length + 1) l.neuron_id
      (pos + 1 + 1) (bad :: (post ++ rest)) core hv
  have hfl : pre ++ bad :: post ++ rest = pre ++ bad :: (post ++ rest) := by simp
  rw [hlen, hfl, h, get_external_events_per_core_loop]
  simp only [fread, ge_iff_le]
  have hb : (if t = ct then push_all_per_core ct pre core else core).core_pms.num_inputs
      ≤ bad := by
    split
    · rw [core_pms_push_all_per_core]; exact hbad
    · exact hbad
  rw [if_pos hb]

theorem grown_by_valid_refl (nc ct : Nat) (core : List nsat_core) :
    grown_by_valid nc ct core core :=
  fun _ => ⟨rfl, [], by simp, by simp, fun _ => rfl⟩

theorem grown_by_valid_trans (nc ct : Nat) (a b c : List nsat_core)
    (hab : grown_by_valid nc ct a b) (hbc : grown_by_valid nc ct b c) :
    grown_by_valid nc ct a c := by
  intro i
  obtain ⟨hp1, add1, he1, hq1, hn1⟩ := hab i
  obtain ⟨hp2, add2, he2, hq2, hn2⟩ := hbc i
  refine ⟨hp2.trans hp1, add1 ++ add2, ?_, ?_, ?_⟩
  · rw [he2, he1, List.append_assoc]
  · intro q hq
    rcases List.mem_append.mp hq with h | h
    · exact hq1 q h
    · have := hq2 q h
      rwa [hp1] at this
  · intro h
    rw [hn1 h, hn2 h]; rfl

theorem grown_by_valid_push (nc ct cid nid : Nat) (core : List nsat_core)
    (h1 : cid < nc) (h2 : nid < (core.getD cid default).core_pms.num_inputs) :
    grown_by_valid nc ct core (push_ext_event core cid nid ct) := by
  intro c
  refine ⟨core_pms_push_ext_event core cid nid ct c, ?_⟩
  rw [getD_push_ext_event]
  by_cases h : c = cid ∧ cid < core.length
  · rw [if_pos h]
    obtain ⟨hc, _⟩ := h
    subst hc
    refine ⟨[(nid, ct, 1)], rfl, ?_, ?_⟩
    · intro q hq
      rw [List.mem_singleton] at hq
      subst hq
      exact ⟨rfl, h2⟩
    · intro hle
      omega
  · rw [if_neg h]
    exact ⟨[], by simp, by simp, fun _ => rfl⟩

/-- Invariant of the loop of `get_external_events`, for every stream. -/
theorem get_external_events_loop_grown (nc ct t : Nat) :
    ∀ (n cid nid : Nat) (fp : in_stream) (core : List nsat_core),
      grown_by_valid nc ct core (get_external_events_loop nc ct t n cid nid fp core).2 := by
  intro n
  induction n with
  | zero =>
    intro cid nid fp core
    exact grown_by_valid_refl nc ct core
  | succ n ih =>
    intro cid nid fp core
    rw [get_external_events_loop]
    simp only [ge_iff_le]
    split
    · exact grown_by_valid_refl nc ct core
    · next h1 =>
      split
      · exact grown_by_valid_refl nc ct core
      · next h2 =>
        apply grown_by_valid_trans nc ct core _ _ _ (ih _ _ _ _)
        split
        · exact grown_by_valid_push nc ct _ _ core (Nat.lt_of_not_le h1) (Nat.lt_of_not_le h2)
        · exact grown_by_valid_refl nc ct core

theorem grown_by_valid_per_core_refl (ct : Nat) (core : nsat_core) :
    grown_by_valid_per_core ct core core :=
  ⟨rfl, [], by simp, by simp⟩

theorem grown_by_valid_per_core_trans (ct : Nat) (a b c : nsat_core)
    (hab : grown_by_valid_per_core ct a b) (hbc : grown_by_valid_per_core ct b c) :
    grown_by_valid_per_core ct a c := by
  obtain ⟨hp1, add1, he1, hq1⟩ := hab
  obtain ⟨hp2, add2, he2, hq2⟩ := hbc
  refine ⟨hp2.trans hp1, add1 ++ add2, ?_, ?_⟩
  · rw [he2, he1, List.append_assoc]
  · intro q hq
    rcases List.mem_append.mp hq with h | h
    · exact hq1 q h
    · have := hq2 q h
      rwa [hp1] at this

/-- Invariant of the loop of `get_external_events_per_core`, for every stream. -/
theorem get_external_events_per_core_loop_grown (ct t : Nat) :
    ∀ (n nid : Nat) (fp : in_stream) (core : nsat_core),
      grown_by_valid_per_core ct core
        (get_external_events_per_core_loop ct t n nid fp core).2 := by
  intro n
  induction n with
  | zero =>
    intro nid fp core
    exact grown_by_valid_per_core_refl ct core
  | succ n ih =>
    intro nid fp core
    rw [get_external_events_per_core_loop]
    simp only [ge_iff_le]
    split
    · exact grown_by_valid_per_core_refl ct core
    · next h1 =>
      apply grown_by_valid_per_core_trans ct core _ _ _ (ih _ _ _)
      split
      · refine ⟨rfl, [((fread fp nid).1, ct, 1)], rfl, ?_⟩
        intro q hq
        rw [List.mem_singleton] at hq
        subst hq
        exact ⟨rfl, Nat.lt_of_not_le h1⟩
      · exact grown_by_valid_per_core_refl ct core

/-! ### Claims on the readers -/

/-- C1: `get_external_events`, with external events enabled, on a record group whose
entries all have `core_id < num_cores` and `neuron_id < num_inputs` of their core: when
`time = curr_time` the queue of every core `c` is the queue before followed by one entry
`(neuron_id, curr_time, 1)` for each stream entry with `core_id = c`, in stream order;
when `time ≠ curr_time` the cores are unchanged. -/
theorem get_external_events_enqueues_valid_group (l : locals) (pos : Nat) (rest : List Nat)
    (core : List nsat_core) (curr_time num_cores time : Nat) (entries : List (Nat × Nat))
    (hon : (core.getD 0 default).core_pms.is_ext_evts_on = true)
    (hlen : num_cores ≤ core.length)
    (hvalid : ∀ e ∈ entries, valid_entry core num_cores e) :
    (time = curr_time → ∀ c,
      ((get_external_events l ⟨pos, record_group time entries ++ rest⟩ core curr_time
          num_cores).2.getD c default).ext_events
        = (core.getD c default).ext_events
            ++ (entries.filter (fun e => e.1 = c)).map (fun e => (e.2, curr_time, 1))) ∧
    (time ≠ curr_time →
      (get_external_events l ⟨pos, record_group time entries ++ rest⟩ core curr_time
          num_cores).2 = core) := by
  rw [get_external_events_valid_eq l pos rest core curr_time num_cores time entries hon hvalid]
  constructor
  · intro ht c
    simp only [ht, if_true]
    have := ext_events_push_all curr_time entries core c
      (fun e he => Nat.lt_of_lt_of_le (hvalid e he).1 hlen)
    simpa [events_for] using this
  · intro ht
    simp [ht]

theorem get_external_events_enqueues_valid_group_witness :
    (two_cores.getD 0 default).core_pms.is_ext_evts_on = true ∧
    2 ≤ two_cores.length ∧
    (∀ e ∈ [(1, 0), (0, 1), (0, 0)], valid_entry two_cores 2 e) ∧
    ((5 = 5 → ∀ c,
      ((get_external_events {} ⟨0, record_group 5 [(1, 0), (0, 1), (0, 0)] ++ [6, 0]⟩
          two_cores 5 2).2.getD c default).ext_events
        = (two_cores.getD c default).ext_events
            ++ ([(1, 0), (0, 1), (0, 0)].filter (fun e => e.1 = c)).map
                (fun e => (e.2, 5, 1))) ∧
    (5 ≠ 5 →
      (get_external_events {} ⟨0, record_group 5 [(1, 0), (0, 1), (0, 0)] ++ [6, 0]⟩
          two_cores 5 2).2 = two_cores)) :=
  ⟨by decide, by decide, by decide,
   get_external_events_enqueues_valid_group {} 0 [6, 0] two_cores 5 2 5
     [(1, 0), (0, 1), (0, 0)] (by decide) (by decide) (by decide)⟩

/-- C2: when `bad` is the first entry of a record group that fails a range check, the
cores (hence every queue) after `get_external_events` and after
`get_external_events_per_core` are exactly those obtained from the group made of the
entries before `bad` only; nothing at or after `bad` is enqueued, whatever follows it. -/
theorem readers_stop_at_first_invalid_entry (l l' : locals) (pos pos' : Nat)
    (rest rest' : List Nat) (curr_time num_cores time : Nat)
    (core : List nsat_core) (pre post : List (Nat × Nat)) (bad : Nat × Nat)
    (core1 : nsat_core) (pre1 post1 : List Nat) (bad1 : Nat)
    (hpre : ∀ e ∈ pre, valid_entry core num_cores e)
    (hbad : num_cores ≤ bad.1 ∨ (core.getD bad.1 default).core_pms.num_inputs ≤ bad.2)
    (hpre1 : ∀ x ∈ pre1, x < core1.core_pms.num_inputs)
    (hbad1 : core1.core_pms.num_inputs ≤ bad1) :
    (get_external_events l ⟨pos, record_group time (pre ++ bad :: post) ++ rest⟩ core
        curr_time num_cores).2
      = (get_external_events l' ⟨pos', record_group time pre ++ rest'⟩ core
          curr_time num_cores).2 ∧
    (get_external_events_per_core l
        (some ⟨pos, record_group_per_core time (pre1 ++ bad1 :: post1) ++ rest⟩) core1
        curr_time).2
      = (get_external_events_per_core l'
          (some ⟨pos', record_group_per_core time pre1 ++ rest'⟩) core1 curr_time).2 := by
  constructor
  · by_cases hon : (core.getD 0 default).core_pms.is_ext_evts_on = true
    · have hb : ¬ valid_entry core num_cores bad := by
        intro hv
        rcases hbad with h | h
        · exact Nat.not_le_of_lt hv.1 h
        · exact Nat.not_le_of_lt hv.2 h
      rw [get_external_events_first_invalid l pos rest core curr_time num_cores time pre post
            bad hon hpre hb,
          get_external_events_valid_eq l' pos' rest' core curr_time num_cores time pre hon hpre]
    · unfold get_external_events
      rw [if_neg hon, if_neg hon]
  · rw [get_external_events_per_core_first_invalid l pos rest core1 curr_time time pre1 post1
          bad1 hpre1 hbad1,
        get_external_events_per_core_valid_eq l' pos' rest' core1 curr_time time pre1 hpre1]

theorem readers_stop_at_first_invalid_entry_witness :
    (∀ e ∈ [(1, 0)], valid_entry two_cores 2 e) ∧
    (2 ≤ (0, 2).1 ∨ (two_cores.getD (0, 2).1 default).core_pms.num_inputs ≤ (0, 2).2) ∧
    (∀ x ∈ [1], x < one_core.core_pms.num_inputs) ∧
    one_core.core_pms.num_inputs ≤ 2 ∧
    ((get_external_events {} ⟨0, record_group 5 ([(1, 0)] ++ (0, 2) :: [(0, 1)]) ++ []⟩
        two_cores 5 2).2
      = (get_external_events {} ⟨0, record_group 5 [(1, 0)] ++ []⟩ two_cores 5 2).2 ∧
    (get_external_events_per_core {}
        (some ⟨0, record_group_per_core 5 ([1] ++ 2 :: [0]) ++ []⟩) one_core 5).2
      = (get_external_events_per_core {}
          (some ⟨0, record_group_per_core 5 [1] ++ []⟩) one_core 5).2) :=
  ⟨by decide, by decide, by decide, by decide,
   readers_stop_at_first_invalid_entry {} {} 0 0 [] [] 5 2 5 two_cores [(1, 0)] [(0, 1)]
     (0, 2) one_core [1] [0] 2 (by decide) (by decide) (by decide) (by decide)⟩

/-- C3: for every stream, every initial content of the locals and every `curr_time`,
with no assumption on the ids read: what `get_external_events` and
`get_external_events_per_core` append to a core's queue are entries whose time field is
`curr_time` and whose neuron id is below that core's `num_inputs`, and
`get_external_events` appends nothing to a core of index `num_cores` or more. -/
theorem readers_enqueue_only_checked_events (l : locals) (fp : in_stream)
    (core : List nsat_core) (curr_time num_cores : Nat) (fp1 : Option in_stream)
    (core1 : nsat_core) :
    (∀ c, ∃ added : List ext_event,
      ((get_external_events l fp core curr_time num_cores).2.getD c default).ext_events
        = (core.getD c default).ext_events ++ added ∧
      (∀ q ∈ added, q.2.1 = curr_time ∧ q.1 < (core.getD c default).core_pms.num_inputs) ∧
      (num_cores ≤ c → added = [])) ∧
    (∃ added : List ext_event,
      (get_external_events_per_core l fp1 core1 curr_time).2.ext_events
        = core1.ext_events ++ added ∧
      (∀ q ∈ added, q.2.1 = curr_time ∧ q.1 < core1.core_pms.num_inputs)) := by
  constructor
  · intro c
    have h : grown_by_valid num_cores curr_time core
        (get_external_events l fp core curr_time num_cores).2 := by
      unfold get_external_events
      split
      · dsimp only
        split
        · exact get_external_events_loop_grown _ _ _ _ _ _ _ _
        · exact grown_by_valid_refl _ _ _
      · exact grown_by_valid_refl _ _ _
    exact (h c).2
  · have h : grown_by_valid_per_core curr_time core1
        (get_external_events_per_core l fp1 core1 curr_time).2 := by
      unfold get_external_events_per_core
      split
      · exact grown_by_valid_per_core_refl _ _
      · dsimp only
        split
        · exact get_external_events_per_core_loop_grown _ _ _ _ _ _
        · exact grown_by_valid_per_core_refl _ _
    exact h.2

/-- C4, as stated, fails: a group of two entries whose first entry has an invalid id is
left after three words by `get_external_events` (not `2 + 2 * 2`) and after three words
by `get_external_events_per_core` (not `2 + 2`). -/
theorem readers_cursor_short_on_invalid_entry :
    (get_external_events {} ⟨0, record_group 5 [(7, 0), (0, 0)]⟩ two_cores 5 2).1.pos = 3 ∧
    (get_external_events {} ⟨0, record_group 5 [(7, 0), (0, 0)]⟩ two_cores 5 2).1.pos
      ≠ 0 + (2 + 2 * [(7, 0), (0, 0)].length) ∧
    (get_external_events_per_core {} (some ⟨0, record_group_per_core 5 [9, 0]⟩)
      one_core 5).1 = some ⟨3, [0]⟩ ∧
    (get_external_events_per_core {} (some ⟨0, record_group_per_core 5 [9, 0]⟩)
      one_core 5).1 ≠ some ⟨0 + (2 + [9, 0].length), []⟩ := by
  decide

/-- C4, amended: on a record group all of whose entries pass the range checks,
`get_external_events` (external events enabled) leaves the stream `2 + 2 * count` words
further and `get_external_events_per_core` (stream not `NULL`) `2 + count` words further;
with `count = 0` two words are consumed and the cores are unchanged. -/
theorem readers_consume_whole_valid_group (l : locals) (pos : Nat) (rest : List Nat)
    (curr_time num_cores time : Nat) (core : List nsat_core) (entries : List (Nat × Nat))
    (core1 : nsat_core) (ids : List Nat)
    (hon : (core.getD 0 default).core_pms.is_ext_evts_on = true)
    (hvalid : ∀ e ∈ entries, valid_entry core num_cores e)
    (hvalid1 : ∀ x ∈ ids, x < core1.core_pms.num_inputs) :
    (get_external_events l ⟨pos, record_group time entries ++ rest⟩ core curr_time
        num_cores).1 = ⟨pos + (2 + 2 * entries.length), rest⟩ ∧
    (get_external_events_per_core l (some ⟨pos, record_group_per_core time ids ++ rest⟩)
        core1 curr_time).1 = some ⟨pos + (2 + ids.length), rest⟩ ∧
    get_external_events l ⟨pos, record_group time [] ++ rest⟩ core curr_time num_cores
      = (⟨pos + 2, rest⟩, core) ∧
    get_external_events_per_core l (some ⟨pos, record_group_per_core time [] ++ rest⟩)
        core1 curr_time = (some ⟨pos + 2, rest⟩, core1) := by
  refine ⟨?_, ?_, ?_, ?_⟩
  · rw [get_external_events_valid_eq l pos rest core curr_time num_cores time entries hon
      hvalid]
  · rw [get_external_events_per_core_valid_eq l pos rest core1 curr_time time ids hvalid1]
  · rw [get_external_events_valid_eq l pos rest core curr_time num_cores time [] hon
      (by simp)]
    simp [push_all]
  · rw [get_external_events_per_core_valid_eq l pos rest core1 curr_time time [] (by simp)]
    simp [push_all_per_core]

theorem readers_consume_whole_valid_group_witness :
    (two_cores.getD 0 default).core_pms.is_ext_evts_on = true ∧
    (∀ e ∈ [(1, 0), (0, 1)], valid_entry two_cores 2 e) ∧
    (∀ x ∈ [1, 0, 1], x < one_core.core_pms.num_inputs) ∧
    ((get_external_events {} ⟨4, record_group 5 [(1, 0), (0, 1)] ++ [6, 0]⟩ two_cores 7
        2).1 = ⟨4 + (2 + 2 * [(1, 0), (0, 1)].length), [6, 0]⟩ ∧
    (get_external_events_per_core {} (some ⟨4, record_group_per_core 5 [1, 0, 1] ++ [6, 0]⟩)
        one_core 7).1 = some ⟨4 + (2 + [1, 0, 1].length), [6, 0]⟩ ∧
    get_external_events {} ⟨4, record_group 5 [] ++ [6, 0]⟩ two_cores 7 2
      = (⟨4 + 2, [6, 0]⟩, two_cores) ∧
    get_external_events_per_core {} (some ⟨4, record_group_per_core 5 [] ++ [6, 0]⟩)
        one_core 7 = (some ⟨4 + 2, [6, 0]⟩, one_core)) :=
  ⟨by decide, by decide, by decide,
   readers_consume_whole_valid_group {} 4 [6, 0] 7 2 5 two_cores [(1, 0), (0, 1)] one_core
     [1, 0, 1] (by decide) (by decide) (by decide)⟩

/-- C5, as stated, fails: core 1 has its external-events flag clear, yet
`get_external_events` appends to its queue, because the only flag tested is that of
core 0. -/
theorem get_external_events_reaches_core_with_flag_clear :
    (two_cores.getD 1 default).core_pms.is_ext_evts_on = false ∧
    (two_cores.getD 1 default).ext_events = [] ∧
    ((get_external_events {} ⟨0, record_group 5 [(1, 0)]⟩ two_cores 5 2).2.getD 1
      default).ext_events = [(0, 5, 1)] := by
  decide

/-- C5, amended: `get_external_events` is gated by the flag of core 0 alone; when that
flag is clear no queue changes and the stream read cursor is not advanced. -/
theorem get_external_events_gated_by_first_core (l : locals) (fp : in_stream)
    (core : List nsat_core) (curr_time num_cores : Nat)
    (hoff : (core.getD 0 default).core_pms.is_ext_evts_on = false) :
    get_external_events l fp core curr_time num_cores = (fp, core) := by
  unfold get_external_events
  rw [hoff]
  rfl

theorem get_external_events_gated_by_first_core_witness :
    ((two_cores.reverse).getD 0 default).core_pms.is_ext_evts_on = false ∧
    get_external_events {} ⟨0, record_group 5 [(1, 0)]⟩ two_cores.reverse 5 2
      = (⟨0, record_group 5 [(1, 0)]⟩, two_cores.reverse) :=
  ⟨by decide,
   get_external_events_gated_by_first_core {} ⟨0, record_group 5 [(1, 0)]⟩
     two_cores.reverse 5 2 (by decide)⟩

/-! ## The output writers -/

theorem toInt32_of_fits (v : Int) (h1 : -2147483648 ≤ v) (h2 : v < 2147483648) :
    toInt32 v = v := by
  unfold toInt32
  omega

theorem toInt32_natCast (n : Nat) (h : n < 2147483648) : toInt32 (n : Int) = (n : Int) :=
  toInt32_of_fits _ (by omega) (by omega)

theorem flatMap_congr_of_mem {α β : Type} (l : List α) (f g : α → List β)
    (h : ∀ x ∈ l, f x = g x) : l.flatMap f = l.flatMap g := by
  induction l with
  | nil => rfl
  | cons a l ih =>
    rw [List.flatMap_cons, List.flatMap_cons, h a (List.mem_cons_self _ _),
      ih (fun x hx => h x (List.mem_cons_of_mem _ hx))]

/-- A `for` loop whose body appends `f i` to the file appends the blocks `f a`,
`f (a + 1)`, … in this order. -/
theorem for_loop_append {β : Type} (body : Nat → List β → List β) (f : Nat → List β)
    (h : ∀ i fp, body i fp = fp ++ f i) :
    ∀ (n a : Nat) (fp : List β),
      for_loop body n a fp = fp ++ (List.range' a n).flatMap f := by
  intro n
  induction n with
  | zero => intro a fp; simp [for_loop]
  | succ n ih =>
    intro a fp
    rw [for_loop, ih, h, List.range'_succ, List.flatMap_cons, List.append_assoc]

theorem write_ext_synapses_eq (c : nsat_core) (j k : Nat) (syns : List syn_list_node) :
    ∀ fp, write_ext_synapses c j k syns fp = fp ++ syns.flatMap (ext_fields c j k) := by
  induction syns with
  | nil => intro fp; simp [write_ext_synapses]
  | cons s syns ih =>
    intro fp
    rw [write_ext_synapses, ih, List.flatMap_cons, List.append_assoc]

theorem write_nsat_synapses_eq (c : nsat_core) (j k : Nat) (syns : List syn_list_node) :
    ∀ fp, write_nsat_synapses c j k syns fp = fp ++ syns.flatMap (nsat_fields c j k) := by
  induction syns with
  | nil => intro fp; simp [write_nsat_synapses]
  | cons s syns ih =>
    intro fp
    rw [write_nsat_synapses, ih, List.flatMap_cons, List.append_assoc]

/-- The file written for the core `c`, loops unrolled: the count, the fields of the
external neurons, the fields of the NSAT neurons. -/
theorem write_final_weights_body_eq (c : nsat_core) :
    write_final_weights_body c
      = toInt32 (c.syn.tot_ext_syn_num + c.syn.tot_nsat_syn_num) ::
          (((List.range c.core_pms.num_inputs).flatMap fun j =>
              (List.range c.core_pms.num_states).flatMap fun k =>
                (ext_syn_list c j k).flatMap (ext_fields c j k))
            ++ ((List.range c.core_pms.num_neurons).flatMap fun j =>
              (List.range c.core_pms.num_states).flatMap fun k =>
                (nsat_syn_list c j k).flatMap (nsat_fields c j k))) := by
  unfold write_final_weights_body
  simp only [List.range_eq_range']
  rw [for_loop_append _ (fun j => (List.range' 0 c.core_pms.num_states).flatMap fun k =>
        (nsat_syn_list c j k).flatMap (nsat_fields c j k)),
      for_loop_append _ (fun j => (List.range' 0 c.core_pms.num_states).flatMap fun k =>
        (ext_syn_list c j k).flatMap (ext_fields c j k))]
  · simp
  · intro j fp
    exact for_loop_append _ _
      (fun k fp => write_ext_synapses_eq c j k (ext_syn_list c j k) fp) _ _ _
  · intro j fp
    exact for_loop_append _ _
      (fun k fp => write_nsat_synapses_eq c j k (nsat_syn_list c j k) fp) _ _ _

/-- When every file can be opened, `write_final_weights` leaves `n` files that all hold
what the body writes for `core[0]`. -/
theorem write_final_weights_loop_eq (can_open : Nat → Bool) (core : List nsat_core) :
    ∀ (n p : Nat) (files : List (List Int)),
      (∀ q, p ≤ q → q < p + n → can_open q = true) →
      write_final_weights_loop can_open core n p files
        = { files := files ++ List.replicate n (write_final_weights_body (core.getD 0 default)),
            exit_status := none } := by
  intro n
  induction n with
  | zero => intro p files _; simp [write_final_weights_loop]
  | succ n ih =>
    intro p files h
    rw [write_final_weights_loop, if_pos (h p (Nat.le_refl _) (by omega)),
      ih (p + 1) _ (fun q h1 h2 => h q (by omega) (by omega))]
    simp [List.replicate_succ]

theorem write_final_weights_eq (can_open : Nat → Bool) (core : List nsat_core)
    (num_cores : Nat) (hopen : ∀ p < num_cores, can_open p = true) :
    write_final_weights can_open core num_cores
      = { files := List.replicate num_cores (write_final_weights_body (core.getD 0 default)),
          exit_status := none } := by
  unfold write_final_weights
  rw [write_final_weights_loop_eq can_open core num_cores 0 []
    (fun q _ h2 => hopen q (by omega))]
  simp

/-- Number of fields the body writes: the count and four fields per synapse in the lists
of the core it reads. -/
theorem write_final_weights_body_length (c : nsat_core) :
    (write_final_weights_body c).length = 1 + 4 * (ext_syn_count c + nsat_syn_count c) := by
  rw [write_final_weights_body_eq]
  have h4 : ∀ (f : syn_list_node → List Int) (l : List syn_list_node),
      (∀ s, (f s).length = 4) → (l.flatMap f).length = 4 * l.length := by
    intro f l hf
    induction l with
    | nil => rfl
    | cons a l ih => rw [List.flatMap_cons, List.length_append, ih, hf, List.length_cons]; omega
  have hsum : ∀ (g : Nat → List Int) (h : Nat → Nat) (l : List Nat),
      (∀ i, (g i).length = 4 * h i) → (l.flatMap g).length = 4 * (l.map h).sum := by
    intro g h l hg
    induction l with
    | nil => rfl
    | cons a l ih =>
      rw [List.flatMap_cons, List.length_append, ih, hg, List.map_cons, List.sum_cons]; omega
  rw [List.length_cons, List.length_append,
    hsum _ (fun j => ((List.range c.core_pms.num_states).map
      fun k => (ext_syn_list c j k).length).sum) _
      (fun j => hsum _ (fun k => (ext_syn_list c j k).length) _
        (fun k => h4 (ext_fields c j k) _ (fun _ => rfl))),
    hsum _ (fun j => ((List.range c.core_pms.num_states).map
      fun k => (nsat_syn_list c j k).length).sum) _
      (fun j => hsum _ (fun k => (nsat_syn_list c j k).length) _
        (fun k => h4 (nsat_fields c j k) _ (fun _ => rfl)))]
  unfold ext_syn_count nsat_syn_count
  omega

/-- The files of `write_spikes_events` when every file can be opened: file `q` is what the
body writes for `core[q]`. -/
theorem write_spikes_events_loop_eq (can_open : Nat → Bool) (core : List nsat_core) :
    ∀ (n p : Nat) (files : List (List Nat)),
      (∀ q, p ≤ q → q < p + n → can_open q = true) →
      write_spikes_events_loop can_open core n p files
        = { files := files ++ (List.range' p n).map
              (fun q => write_spikes_events_body (core.getD q default)),
            exit_status := none } := by
  intro n
  induction n with
  | zero => intro p files _; simp [write_spikes_events_loop]
  | succ n ih =>
    intro p files h
    rw [write_spikes_events_loop, if_pos (h p (Nat.le_refl _) (by omega)),
      ih (p + 1) _ (fun q h1 h2 => h q (by omega) (by omega))]
    simp [List.range'_succ]

theorem write_spikes_events_eq (can_open : Nat → Bool) (core : List nsat_core)
    (num_cores : Nat) (hopen : ∀ p < num_cores, can_open p = true) :
    write_spikes_events can_open core num_cores
      = { files := (List.range num_cores).map
            (fun q => write_spikes_events_body (core.getD q default)),
          exit_status := none } := by
  unfold write_spikes_events
  rw [write_spikes_events_loop_eq can_open core num_cores 0 []
    (fun q _ h2 => hopen q (by omega)), List.range_eq_range']
  simp

/-! ### Claims on the writers -/

/-- C6, evaluated at two cores whose counters agree with their lists: the file written
for core 1 starts with the count 2 and holds two records, those of core 0, although
core 1 has no synapse at all (its counters and its lists give 0). -/
theorem write_final_weights_count_of_second_file :
    (write_final_weights (fun _ => true) [core_a, core_b] 2).files.getD 1 []
      = [2, 0, 7, 0, -1, 2, 2, 0, 42] ∧
    ext_syn_count core_a + nsat_syn_count core_a = 2 ∧
    core_a.syn.tot_ext_syn_num + core_a.syn.tot_nsat_syn_num = 2 ∧
    ext_syn_count core_b + nsat_syn_count core_b = 0 ∧
    core_b.syn.tot_ext_syn_num + core_b.syn.tot_nsat_syn_num = 0 := by
  decide

/-- C7, evaluated at two cores with different synapse lists: both files hold the count
and the records of core 0, and the second file is not what the body writes for core 1. -/
theorem write_final_weights_same_file_for_every_core :
    write_final_weights (fun _ => true) [core_a, core_b] 2
      = { files := [write_final_weights_body core_a, write_final_weights_body core_a],
          exit_status := none } ∧
    write_final_weights_body core_a = [2, 0, 7, 0, -1, 2, 2, 0, 42] ∧
    write_final_weights_body core_b = [0] := by
  decide

/-- The file the body writes for the core `c`, in terms of records, when the ids, state
indices, positions and weights fit a 32-bit `int`. -/
theorem write_final_weights_body_records (c : nsat_core)
    (hj : c.core_pms.num_inputs + c.core_pms.num_neurons ≤ 2147483648)
    (hk : c.core_pms.num_states ≤ 2147483648)
    (hext : ∀ j < c.core_pms.num_inputs, ∀ k < c.core_pms.num_states,
      ∀ s ∈ (c.ext_neuron.getD j default).syn_ptr.getD k [],
        s.id + c.core_pms.num_inputs < 2147483648 ∧ s.w_ptr ≤ 2147483648)
    (hnsat : ∀ j < c.core_pms.num_neurons, ∀ k < c.core_pms.num_states,
      ∀ s ∈ (c.nsat_neuron.getD j default).syn_ptr.getD k [],
        s.id + c.core_pms.num_inputs < 2147483648 ∧
        -2147483648 ≤ c.shared_memory.getD s.w_ptr 0 ∧
        c.shared_memory.getD s.w_ptr 0 < 2147483648) :
    write_final_weights_body c
      = toInt32 (c.syn.tot_ext_syn_num + c.syn.tot_nsat_syn_num) ::
          (ext_records c ++ nsat_records c).flatMap record_fields := by
  rw [write_final_weights_body_eq]
  have he : ((List.range c.core_pms.num_inputs).flatMap fun j =>
        (List.range c.core_pms.num_states).flatMap fun k =>
          (ext_syn_list c j k).flatMap (ext_fields c j k))
      = (ext_records c).flatMap record_fields := by
    unfold ext_records
    rw [List.flatMap_assoc]
    apply flatMap_congr_of_mem
    intro j hjm
    rw [List.flatMap_assoc]
    apply flatMap_congr_of_mem
    intro k hkm
    rw [List.flatMap_map]
    apply flatMap_congr_of_mem
    intro s hs
    have hj' := List.mem_range.mp hjm
    have hk' := List.mem_range.mp hkm
    obtain ⟨h1, h2⟩ := hext j hj' k hk' s hs
    unfold ext_fields record_fields
    rw [← Nat.cast_add, toInt32_natCast j (by omega), toInt32_natCast k (by omega),
      toInt32_natCast _ h1, toInt32_of_fits (0 - (s.w_ptr : Int)) (by omega) (by omega)]
    simp
  have hn : ((List.range c.core_pms.num_neurons).flatMap fun j =>
        (List.range c.core_pms.num_states).flatMap fun k =>
          (nsat_syn_list c j k).flatMap (nsat_fields c j k))
      = (nsat_records c).flatMap record_fields := by
    unfold nsat_records
    rw [List.flatMap_assoc]
    apply flatMap_congr_of_mem
    intro j hjm
    rw [List.flatMap_assoc]
    apply flatMap_congr_of_mem
    intro k hkm
    rw [List.flatMap_map]
    apply flatMap_congr_of_mem
    intro s hs
    have hj' := List.mem_range.mp hjm
    have hk' := List.mem_range.mp hkm
    obtain ⟨h1, h2, h3⟩ := hnsat j hj' k hk' s hs
    unfold nsat_fields record_fields
    rw [← Nat.cast_add, ← Nat.cast_add, toInt32_natCast (j + _) (by omega),
      toInt32_natCast k (by omega), toInt32_natCast _ h1, toInt32_of_fits _ h2 h3]
  rw [he, hn, List.flatMap_append]

/-- The files written before the loop of `write_final_weights` is entered stay where they
are. -/
theorem write_final_weights_loop_files (can_open : Nat → Bool) (core : List nsat_core) :
    ∀ (n p : Nat) (files : List (List Int)),
      ∃ more, (write_final_weights_loop can_open core n p files).files = files ++ more := by
  intro n
  induction n with
  | zero => intro p files; exact ⟨[], by simp [write_final_weights_loop]⟩
  | succ n ih =>
    intro p files
    rw [write_final_weights_loop]
    by_cases hp : can_open p = true
    · rw [if_pos hp]
      obtain ⟨more, h⟩ := ih (p + 1) (files ++ [write_final_weights_body (core.getD 0 default)])
      exact ⟨write_final_weights_body (core.getD 0 default) :: more, by rw [h]; simp⟩
    · rw [if_neg hp]
      exact ⟨[], by simp⟩

/-- The first file of `write_final_weights` is what the body writes for `core[0]`. -/
theorem write_final_weights_first_file (can_open : Nat → Bool) (core : List nsat_core)
    (num_cores : Nat) (hn : 0 < num_cores) (hopen : can_open 0 = true) :
    (write_final_weights can_open core num_cores).files[0]?
      = some (write_final_weights_body (core.getD 0 default)) := by
  obtain ⟨n, rfl⟩ : ∃ n, num_cores = n + 1 := ⟨num_cores - 1, by omega⟩
  unfold write_final_weights
  rw [write_final_weights_loop, if_pos hopen]
  obtain ⟨more, h⟩ := write_final_weights_loop_files can_open core n (0 + 1)
    ([] ++ [write_final_weights_body (core.getD 0 default)])
  rw [h]
  simp

/-- C8, as stated, fails on its own scenario (two inputs, a single external synapse at
neuron 0, state 0, target id 5, weight 42) when the weight is the second element of
shared memory: the only record is `(0, 7, 0, -1)`, whose fourth field is neither the
weight 42 nor an offset of the weight, which is not negative. With the weight in the
first element the record is `(0, 7, 0, 0)`. -/
theorem write_final_weights_scenario_field_is_neither_offset_nor_weight :
    ext_syn_list scenario_core_second_element 0 0 = [{ id := 5, w_ptr := 1 }] ∧
    scenario_core_second_element.shared_memory.getD 1 0 = 42 ∧
    write_final_weights (fun _ => true) [scenario_core_second_element] 1
      = { files := [[1, 0, 7, 0, -1]], exit_status := none } ∧
    ((write_final_weights (fun _ => true) [scenario_core_second_element] 1).files.getD 0
      []).getD 4 0 ≠ 42 ∧
    ¬ (0 ≤ ((write_final_weights (fun _ => true) [scenario_core_second_element] 1).files.getD
      0 []).getD 4 0) ∧
    write_final_weights (fun _ => true) [scenario_core] 1
      = { files := [[1, 0, 7, 0, 0]], exit_status := none } := by
  decide

/-- C8, amended: when the first file can be opened and the ids, state indices, positions
and weights fit a 32-bit `int`, the file `write_final_weights` writes for core 0 is the
count followed by the records of core 0, four fields each, in this order: for every input
neuron `j` ascending, every state `k` ascending, every synapse of list `(j, k)` in list
order, the record `(j, target_id + num_inputs, k, -i)`, `i` being the element of shared
memory that holds the weight; then for every NSAT neuron `j` ascending, every state `k`
ascending, every synapse in list order, the record
`(j + num_inputs, target_id + num_inputs, k, weight at the synapse's weight reference)`. -/
theorem write_final_weights_first_file_records (can_open : Nat → Bool)
    (core : List nsat_core) (num_cores : Nat) (c : nsat_core)
    (hc : core.getD 0 default = c)
    (hn : 0 < num_cores)
    (hopen : can_open 0 = true)
    (hj : c.core_pms.num_inputs + c.core_pms.num_neurons ≤ 2147483648)
    (hk : c.core_pms.num_states ≤ 2147483648)
    (hext : ∀ j < c.core_pms.num_inputs, ∀ k < c.core_pms.num_states,
      ∀ s ∈ (c.ext_neuron.getD j default).syn_ptr.getD k [],
        s.id + c.core_pms.num_inputs < 2147483648 ∧ s.w_ptr ≤ 2147483648)
    (hnsat : ∀ j < c.core_pms.num_neurons, ∀ k < c.core_pms.num_states,
      ∀ s ∈ (c.nsat_neuron.getD j default).syn_ptr.getD k [],
        s.id + c.core_pms.num_inputs < 2147483648 ∧
        -2147483648 ≤ c.shared_memory.getD s.w_ptr 0 ∧
        c.shared_memory.getD s.w_ptr 0 < 2147483648) :
    (write_final_weights can_open core num_cores).files[0]?
      = some (toInt32 (c.syn.tot_ext_syn_num + c.syn.tot_nsat_syn_num) ::
          (ext_records c ++ nsat_records c).flatMap record_fields) := by
  rw [write_final_weights_first_file can_open core num_cores hn hopen, hc,
    write_final_weights_body_records c hj hk hext hnsat]

theorem write_final_weights_first_file_records_witness :
    [ordering_core, core_b].getD 0 default = ordering_core ∧
    0 < 2 ∧
    (fun _ : Nat => true) 0 = true ∧
    ordering_core.core_pms.num_inputs + ordering_core.core_pms.num_neurons ≤ 2147483648 ∧
    ordering_core.core_pms.num_states ≤ 2147483648 ∧
    (∀ j < ordering_core.core_pms.num_inputs, ∀ k < ordering_core.core_pms.num_states,
      ∀ s ∈ (ordering_core.ext_neuron.getD j default).syn_ptr.getD k [],
        s.id + ordering_core.core_pms.num_inputs < 2147483648 ∧ s.w_ptr ≤ 2147483648) ∧
    (∀ j < ordering_core.core_pms.num_neurons, ∀ k < ordering_core.core_pms.num_states,
      ∀ s ∈ (ordering_core.nsat_neuron.getD j default).syn_ptr.getD k [],
        s.id + ordering_core.core_pms.num_inputs < 2147483648 ∧
        -2147483648 ≤ ordering_core.shared_memory.getD s.w_ptr 0 ∧
        ordering_core.shared_memory.getD s.w_ptr 0 < 2147483648) ∧
    (write_final_weights (fun _ => true) [ordering_core, core_b] 2).files[0]?
      = some (toInt32 (ordering_core.syn.tot_ext_syn_num + ordering_core.syn.tot_nsat_syn_num) ::
          (ext_records ordering_core ++ nsat_records ordering_core).flatMap record_fields) ∧
    ext_records ordering_core
      = [(0, 7, 0, -3), (0, 8, 0, -1), (0, 9, 1, -2), (1, 7, 1, 0)] ∧
    nsat_records ordering_core
      = [(2, 2, 0, -20), (2, 3, 1, 10), (2, 2, 1, 30), (3, 3, 0, 40)] ∧
    (write_final_weights (fun _ => true) [ordering_core, core_b] 2).files[0]?
      = some [8, 0, 7, 0, -3, 0, 8, 0, -1, 0, 9, 1, -2, 1, 7, 1, 0,
              2, 2, 0, -20, 2, 3, 1, 10, 2, 2, 1, 30, 3, 3, 0, 40] :=
  ⟨by decide, by decide, by decide, by decide, by decide, by decide, by decide,
   write_final_weights_first_file_records (fun _ => true) [ordering_core, core_b] 2
     ordering_core (by decide) (by decide) (by decide) (by decide) (by decide) (by decide)
     (by decide),
   by decide, by decide, by decide⟩

/-- C9, as stated, fails: for the external synapse of `core_a`, whose weight is element 1
of shared memory, the fourth field written is `-1`; it is negative, hence not a byte
offset `1 * element size`. -/
theorem write_final_weights_ext_field_is_negative :
    ext_syn_list core_a 0 0 = [{ id := 5, w_ptr := 1 }] ∧
    (write_final_weights (fun _ => true) [core_a] 1).files = [[2, 0, 7, 0, -1, 2, 2, 0, 42]] ∧
    ((write_final_weights (fun _ => true) [core_a] 1).files.getD 0 []).getD 4 0 = -1 ∧
    ¬ (0 ≤ ((write_final_weights (fun _ => true) [core_a] 1).files.getD 0 []).getD 4 0) := by
  decide

/-- C9, amended: for the synapses of an external neuron whose weight references point at
elements `i ≤ 2^31` of shared memory, the loop of `write_final_weights` writes as fourth
field the 32-bit integer `-i`: the start of the buffer minus the position of the weight,
counted in elements, which is never positive. -/
theorem write_final_weights_ext_field_is_negated_index (c : nsat_core) (j k : Nat)
    (syns : List syn_list_node) (fp : List Int)
    (hi : ∀ s ∈ syns, s.w_ptr ≤ 2147483648) :
    write_ext_synapses c j k syns fp
      = fp ++ syns.flatMap (fun s =>
          [toInt32 j, toInt32 (s.id + c.core_pms.num_inputs), toInt32 k, -(s.w_ptr : Int)]) ∧
    ∀ s ∈ syns, -(s.w_ptr : Int) ≤ 0 := by
  constructor
  · rw [write_ext_synapses_eq]
    congr 1
    apply flatMap_congr_of_mem
    intro s hs
    have h := hi s hs
    unfold ext_fields
    rw [toInt32_of_fits (0 - (s.w_ptr : Int)) (by omega) (by omega)]
    simp
  · intro s _
    omega

theorem write_final_weights_ext_field_is_negated_index_witness :
    (∀ s ∈ ext_syn_list core_a 0 0, s.w_ptr ≤ 2147483648) ∧
    (write_ext_synapses core_a 0 0 (ext_syn_list core_a 0 0) [2]
      = [2] ++ (ext_syn_list core_a 0 0).flatMap (fun s =>
          [toInt32 (0 : Nat), toInt32 (s.id + core_a.core_pms.num_inputs), toInt32 (0 : Nat),
           -(s.w_ptr : Int)]) ∧
    ∀ s ∈ ext_syn_list core_a 0 0, -(s.w_ptr : Int) ≤ 0) :=
  ⟨by decide,
   write_final_weights_ext_field_is_negated_index core_a 0 0 (ext_syn_list core_a 0 0) [2]
     (by decide)⟩

/-- C10: when every file can be opened, the file `write_spikes_events` writes for core `p`,
whose recorded events have id array `ids` and time array `times`, both of length `n`, is
`ids` followed by `times` (`2 * n` words); reading `n` words and then `n` words back
yields `ids` and `times` and leaves nothing. -/
theorem write_spikes_events_round_trip (can_open : Nat → Bool) (core : List nsat_core)
    (num_cores p n : Nat) (ids times : List Nat)
    (hopen : ∀ q < num_cores, can_open q = true)
    (hp : p < num_cores)
    (hev : (core.getD p default).events = { array := ids, times := times, length := n })
    (hids : ids.length = n) (htimes : times.length = n) :
    (write_spikes_events can_open core num_cores).exit_status = none ∧
    ∃ file, (write_spikes_events can_open core num_cores).files[p]? = some file ∧
      file = ids ++ times ∧ file.length = 2 * n ∧
      (read_words n file).1 = ids ∧
      read_words n (read_words n file).2 = (times, []) := by
  rw [write_spikes_events_eq can_open core num_cores hopen]
  refine ⟨rfl, ids ++ times, ?_, rfl, ?_, ?_, ?_⟩
  · simp only [List.getElem?_map, List.getElem?_range hp, Option.map_some']
    unfold write_spikes_events_body fwrite_words
    rw [hev]
    simp only [List.nil_append]
    rw [← hids, List.take_length, hids, ← htimes, List.take_length]
  · rw [List.length_append, hids, htimes]; omega
  · unfold read_words
    simp only
    rw [← hids, List.take_left]
  · unfold read_words
    simp only
    rw [← hids, List.drop_left, hids, ← htimes, List.take_length, List.drop_length]

theorem write_spikes_events_round_trip_witness :
    (∀ q < 1, (fun _ : Nat => true) q = true) ∧
    0 < 1 ∧
    ([spikes_core].getD 0 default).events = { array := [3, 7], times := [10, 20], length := 2 } ∧
    [3, 7].length = 2 ∧ [10, 20].length = 2 ∧
    ((write_spikes_events (fun _ => true) [spikes_core] 1).exit_status = none ∧
    ∃ file, (write_spikes_events (fun _ => true) [spikes_core] 1).files[0]? = some file ∧
      file = [3, 7] ++ [10, 20] ∧ file.length = 2 * 2 ∧
      (read_words 2 file).1 = [3, 7] ∧
      read_words 2 (read_words 2 file).2 = ([10, 20], [])) :=
  ⟨by decide, by decide, by decide, by decide, by decide,
   write_spikes_events_round_trip (fun _ => true) [spikes_core] 1 0 2 [3, 7] [10, 20]
     (by decide) (by decide) (by decide) (by decide) (by decide)⟩

/-! ## The state monitors -/

/-- A `for` loop whose body appends the single element `f i`. -/
theorem for_loop_append_map {β : Type} (body : Nat → List β → List β) (f : Nat → β)
    (h : ∀ i fp, body i fp = fp ++ [f i]) (n a : Nat) (fp : List β) :
    for_loop body n a fp = fp ++ (List.range' a n).map f := by
  rw [for_loop_append body (fun i => [f i]) h]
  congr 1
  induction (List.range' a n) with
  | nil => rfl
  | cons x l ih => rw [List.flatMap_cons, ih]; rfl

theorem write_neuron_states_eq (c : nsat_core) (j : Nat) (fs : List field) :
    write_neuron_states c j fs = fs ++ neuron_states c j := by
  unfold write_neuron_states neuron_states
  rw [for_loop_append_map _ (fun k => field.state (state_x c j k)) (fun _ _ => rfl),
    List.range_eq_range']

theorem length_neuron_states (c : nsat_core) (j : Nat) :
    (neuron_states c j).length = c.core_pms.num_states := by
  simp [neuron_states]

theorem length_flatMap_const {α β : Type} (l : List α) (f : α → List β) (m : Nat)
    (h : ∀ x, (f x).length = m) : (l.flatMap f).length = l.length * m := by
  induction l with
  | nil => simp
  | cons a l ih =>
    rw [List.flatMap_cons, List.length_append, ih, h, List.length_cons, Nat.succ_mul]
    omega

/-- C13: `update_state_monitor_file` appends the time, a 32-bit integer equal to
`curr_time` when `curr_time` fits one, then the state value `x` of neuron `j`, state `k`
for `j` ascending and, within each neuron, `k` ascending, for every neuron whatever its
flags: `1 + num_neurons * num_states` fields in all. -/
theorem update_state_monitor_file_record (c : nsat_core) (fs : List field)
    (htime : c.curr_time < 2147483648) :
    update_state_monitor_file c fs
      = fs ++ field.i32 (c.curr_time : Int) ::
          (List.range c.core_pms.num_neurons).flatMap (fun j =>
            (List.range c.core_pms.num_states).map fun k => field.state (state_x c j k)) ∧
    (update_state_monitor_file c fs).length
      = fs.length + (1 + c.core_pms.num_neurons * c.core_pms.num_states) := by
  have h : update_state_monitor_file c fs
      = fs ++ field.i32 (c.curr_time : Int) ::
          (List.range c.core_pms.num_neurons).flatMap (neuron_states c) := by
    unfold update_state_monitor_file
    simp only
    rw [for_loop_append _ (neuron_states c) (fun j fs => write_neuron_states_eq c j fs),
      toInt32_natCast _ htime, List.range_eq_range']
    simp
  constructor
  · rw [h]; rfl
  · rw [h, List.length_append, List.length_cons,
      length_flatMap_const _ _ _ (length_neuron_states c), List.length_range]
    omega

theorem update_state_monitor_file_record_witness :
    monitor_core.curr_time < 2147483648 ∧
    (update_state_monitor_file monitor_core []
      = [] ++ field.i32 (monitor_core.curr_time : Int) ::
          (List.range monitor_core.core_pms.num_neurons).flatMap (fun j =>
            (List.range monitor_core.core_pms.num_states).map
              fun k => field.state (state_x monitor_core j k)) ∧
    (update_state_monitor_file monitor_core []).length
      = ([] : List field).length
          + (1 + monitor_core.core_pms.num_neurons * monitor_core.core_pms.num_states)) ∧
    update_state_monitor_file monitor_core []
      = [field.i32 5, field.state 42, field.state (-1)] :=
  ⟨by decide, update_state_monitor_file_record monitor_core [] (by decide), by decide⟩

/-- C14: `update_state_monitor_online` writes the record of `update_state_monitor_file`
restricted to the neurons whose spike-recording flag is set: the time field followed by
the state values of exactly the flagged neurons, in neuron order. When every neuron is
flagged the two functions write the same, and when none is flagged only the time field
is written. -/
theorem update_state_monitor_online_restricts (c : nsat_core) (fs : List field) :
    update_state_monitor_online c fs = fs ++ flagged_state_record c ∧
    ((∀ j < c.core_pms.num_neurons, (c.nsat_neuron.getD j default).is_spk_rec_on = true) →
      update_state_monitor_online c fs = update_state_monitor_file c fs) ∧
    ((∀ j < c.core_pms.num_neurons, (c.nsat_neuron.getD j default).is_spk_rec_on = false) →
      update_state_monitor_online c fs = fs ++ [field.i32 (toInt32 c.curr_time)]) := by
  have hfile : update_state_monitor_file c fs
      = fs ++ field.i32 (toInt32 c.curr_time) ::
          (List.range c.core_pms.num_neurons).flatMap (neuron_states c) := by
    unfold update_state_monitor_file
    simp only
    rw [for_loop_append _ (neuron_states c) (fun j fs => write_neuron_states_eq c j fs),
      List.range_eq_range']
    simp
  have hdef : flagged_state_record c
      = field.i32 (toInt32 c.curr_time) ::
          ((List.range c.core_pms.num_neurons).filter
            fun j => (c.nsat_neuron.getD j default).is_spk_rec_on).flatMap (neuron_states c) :=
    rfl
  have honline : update_state_monitor_online c fs = fs ++ flagged_state_record c := by
    rw [hdef]
    unfold update_state_monitor_online
    simp only
    rw [for_loop_append _
      (fun j => if (c.nsat_neuron.getD j default).is_spk_rec_on then neuron_states c j else [])
      (fun j fs => by
        by_cases hj : (c.nsat_neuron.getD j default).is_spk_rec_on = true
        · rw [if_pos hj]; dsimp only; rw [if_pos hj]; exact write_neuron_states_eq c j fs
        · rw [if_neg hj]; dsimp only; rw [if_neg hj, List.append_nil]),
      List.range_eq_range']
    have hfm : ∀ l : List Nat,
        (l.flatMap fun j =>
          if (c.nsat_neuron.getD j default).is_spk_rec_on then neuron_states c j else [])
        = (l.filter fun j => (c.nsat_neuron.getD j default).is_spk_rec_on).flatMap
            (neuron_states c) := by
      intro l
      induction l with
      | nil => rfl
      | cons a l ih =>
        rw [List.flatMap_cons, ih, List.filter_cons]
        by_cases ha : (c.nsat_neuron.getD a default).is_spk_rec_on = true
        · rw [if_pos ha, if_pos ha, List.flatMap_cons]
        · rw [if_neg ha, if_neg ha, List.nil_append]
    rw [hfm]
    simp
  refine ⟨honline, ?_, ?_⟩
  · intro hall
    rw [honline, hfile, hdef]
    rw [List.filter_eq_self.mpr (fun j hj => hall j (List.mem_range.mp hj))]
  · intro hnone
    rw [honline, hdef]
    rw [List.filter_eq_nil_iff.mpr (fun j hj => by
      rw [hnone j (List.mem_range.mp hj)]; simp)]
    rfl

theorem update_state_monitor_online_restricts_witness :
    (update_state_monitor_online monitor_core [field.i32 4]
        = [field.i32 4] ++ flagged_state_record monitor_core ∧
      ((∀ j < monitor_core.core_pms.num_neurons,
          (monitor_core.nsat_neuron.getD j default).is_spk_rec_on = true) →
        update_state_monitor_online monitor_core [field.i32 4]
          = update_state_monitor_file monitor_core [field.i32 4]) ∧
      ((∀ j < monitor_core.core_pms.num_neurons,
          (monitor_core.nsat_neuron.getD j default).is_spk_rec_on = false) →
        update_state_monitor_online monitor_core [field.i32 4]
          = [field.i32 4] ++ [field.i32 (toInt32 monitor_core.curr_time)])) ∧
    update_state_monitor_online monitor_core [field.i32 4]
      = [field.i32 4, field.i32 5, field.state 42] ∧
    update_state_monitor_file monitor_core [field.i32 4]
      = [field.i32 4, field.i32 5, field.state 42, field.state (-1)] ∧
    (∀ j < monitor_core_all_flagged.core_pms.num_neurons,
      (monitor_core_all_flagged.nsat_neuron.getD j default).is_spk_rec_on = true) ∧
    update_state_monitor_online monitor_core_all_flagged []
      = update_state_monitor_file monitor_core_all_flagged [] ∧
    update_state_monitor_online monitor_core_all_flagged []
      = [field.i32 5, field.state 42, field.state (-1)] ∧
    (∀ j < monitor_core_none_flagged.core_pms.num_neurons,
      (monitor_core_none_flagged.nsat_neuron.getD j default).is_spk_rec_on = false) ∧
    update_state_monitor_online monitor_core_none_flagged []
      = [] ++ [field.i32 (toInt32 monitor_core_none_flagged.curr_time)] ∧
    update_state_monitor_online monitor_core_none_flagged [] = [field.i32 5] :=
  ⟨update_state_monitor_online_restricts monitor_core [field.i32 4],
   by decide, by decide,
   by decide,
   (update_state_monitor_online_restricts monitor_core_all_flagged []).2.1 (by decide),
   by decide,
   by decide,
   (update_state_monitor_online_restricts monitor_core_none_flagged []).2.2 (by decide),
   by decide⟩

/-! ## The FPGA state monitor -/

theorem length_hex_fixed (w n : Nat) : (hex_fixed w n).length = w := by
  induction w generalizing n with
  | zero => rfl
  | succ w ih => rw [hex_fixed, List.length_append, ih]; rfl

theorem digitChar_mem_hex : ∀ d < 16, Nat.digitChar d ∈ "0123456789abcdef".toList := by
  decide

theorem hex_fixed_lower_case (w n : Nat) :
    ∀ ch ∈ hex_fixed w n, ch ∈ "0123456789abcdef".toList := by
  induction w generalizing n with
  | zero => intro ch h; simp [hex_fixed] at h
  | succ w ih =>
    intro ch h
    rw [hex_fixed, List.mem_append, List.mem_singleton] at h
    rcases h with h | h
    · exact ih _ ch h
    · rw [h]; exact digitChar_mem_hex _ (Nat.mod_lt _ (by decide))

theorem fmt_08x_of_lt (n : Nat) (h : n < 4294967296) : fmt_08x n = hex_fixed 8 n := by
  unfold fmt_08x
  rw [if_pos h]

theorem flatten_flatMap_map {α β γ : Type} (l : List α) (m : List β) (f : α → β → List γ) :
    (l.flatMap fun j => m.map fun k => f j k).flatten
      = l.flatMap fun j => m.flatMap fun k => f j k := by
  induction l with
  | nil => rfl
  | cons a l ih =>
    rw [List.flatMap_cons, List.flatMap_cons, List.flatten_append, ih]
    congr 1

theorem store_fpga_states_eq (c : nsat_core) (fsa : List Char) :
    store_fpga_states c fsa = fsa ++ (fpga_lines c).flatten := by
  unfold store_fpga_states fpga_lines
  rw [flatten_flatMap_map, List.range_eq_range', List.range_eq_range']
  exact for_loop_append _ _
    (fun j fsa => for_loop_append _ (fun k => fpga_line c j k) (fun _ _ => rfl) _ _ _) _ _ _

/-- C15, as stated, fails: the fields of a line are separated by two spaces, so the line
is 39 characters long, not 36, and differs from the line with single spaces. -/
theorem store_fpga_states_line_has_two_spaces :
    store_fpga_states monitor_core []
      = ("00000005  00000000  00000000  0000002a\n"
          ++ "00000005  00000001  00000000  ffffffff\n").toList ∧
    fpga_line monitor_core 0 0 = "00000005  00000000  00000000  0000002a\n".toList ∧
    (fpga_line monitor_core 0 0).length = 39 ∧
    (fpga_line monitor_core 0 0).length ≠ 36 ∧
    fpga_line monitor_core 0 0 ≠ "00000005 00000000 00000000 0000002a\n".toList := by
  decide

/-- C15, amended: `store_fpga_states` appends exactly `num_neurons * num_states` lines, one
per (neuron `j`, state `k`) in neuron-major order. When the time and the counts fit 32
bits, each line is four zero-padded 8-digit lower-case hexadecimal fields (time, neuron
id, state id, value), separated by two spaces and ended by a newline, so every line is
39 characters long. -/
theorem store_fpga_states_lines (c : nsat_core) (fsa : List Char)
    (htime : c.curr_time < 4294967296)
    (hn : c.core_pms.num_neurons ≤ 4294967296)
    (hs : c.core_pms.num_states ≤ 4294967296) :
    store_fpga_states c fsa = fsa ++ (fpga_lines c).flatten ∧
    (fpga_lines c).length = c.core_pms.num_neurons * c.core_pms.num_states ∧
    (∀ j < c.core_pms.num_neurons, ∀ k < c.core_pms.num_states,
      fpga_line c j k
        = hex_fixed 8 c.curr_time ++ [' ', ' '] ++ hex_fixed 8 j ++ [' ', ' ']
            ++ hex_fixed 8 k ++ [' ', ' ']
            ++ hex_fixed 8 ((state_x c j k) % 4294967296).toNat ++ ['\n'] ∧
      (fpga_line c j k).length = 39) ∧
    (∀ n, (hex_fixed 8 n).length = 8 ∧
      ∀ ch ∈ hex_fixed 8 n, ch ∈ "0123456789abcdef".toList) := by
  refine ⟨store_fpga_states_eq c fsa, ?_, ?_, fun n => ⟨length_hex_fixed 8 n,
    hex_fixed_lower_case 8 n⟩⟩
  · unfold fpga_lines
    rw [length_flatMap_const _ _ c.core_pms.num_states (fun j => by simp), List.length_range]
  · intro j hj k hk
    have hx : ((state_x c j k) % 4294967296).toNat < 4294967296 := by omega
    have hline : fpga_line c j k
        = hex_fixed 8 c.curr_time ++ [' ', ' '] ++ hex_fixed 8 j ++ [' ', ' ']
            ++ hex_fixed 8 k ++ [' ', ' ']
            ++ hex_fixed 8 ((state_x c j k) % 4294967296).toNat ++ ['\n'] := by
      unfold fpga_line
      rw [fmt_08x_of_lt _ htime, fmt_08x_of_lt j (by omega), fmt_08x_of_lt k (by omega),
        fmt_08x_of_lt _ hx]
      simp
    refine ⟨hline, ?_⟩
    rw [hline]
    simp [length_hex_fixed]

theorem store_fpga_states_lines_witness :
    monitor_core.curr_time < 4294967296 ∧
    monitor_core.core_pms.num_neurons ≤ 4294967296 ∧
    monitor_core.core_pms.num_states ≤ 4294967296 ∧
    (store_fpga_states monitor_core [] = [] ++ (fpga_lines monitor_core).flatten ∧
    (fpga_lines monitor_core).length
      = monitor_core.core_pms.num_neurons * monitor_core.core_pms.num_states ∧
    (∀ j < monitor_core.core_pms.num_neurons, ∀ k < monitor_core.core_pms.num_states,
      fpga_line monitor_core j k
        = hex_fixed 8 monitor_core.curr_time ++ [' ', ' '] ++ hex_fixed 8 j ++ [' ', ' ']
            ++ hex_fixed 8 k ++ [' ', ' ']
            ++ hex_fixed 8 ((state_x monitor_core j k) % 4294967296).toNat ++ ['\n'] ∧
      (fpga_line monitor_core j k).length = 39) ∧
    (∀ n, (hex_fixed 8 n).length = 8 ∧
      ∀ ch ∈ hex_fixed 8 n, ch ∈ "0123456789abcdef".toList)) :=
  ⟨by decide, by decide, by decide,
   store_fpga_states_lines monitor_core [] (by decide) (by decide) (by decide)⟩

/-! ## The synaptic strength monitor -/

theorem toUInt64_of_lt (v : Nat) (h : v < 18446744073709551616) : toUInt64 v = v :=
  Nat.mod_eq_of_lt h

/-- The loop over the recorded-id list writes the record of the synapse once for every
occurrence of the synapse's target id in the list. -/
theorem write_recorded_eq (c : nsat_core) (src k : Nat) (ptr : syn_list_node)
    (ids : List Nat) :
    ∀ fw, write_recorded c src k ptr ids fw
      = fw ++ (List.replicate (ids.count ptr.id) (strength_record c src k ptr ptr.id)).flatten := by
  induction ids with
  | nil => intro fw; simp [write_recorded]
  | cons tmp ids ih =>
    intro fw
    rw [write_recorded, ih, List.count_cons]
    by_cases h : tmp = ptr.id
    · subst h
      simp [List.replicate_succ, List.flatten_append, Nat.add_comm]
    · have hb : (tmp == ptr.id) = false := by simpa using h
      simp [h, hb]

theorem write_strength_synapses_eq (c : nsat_core) (src k : Nat) (ids : List Nat)
    (syns : List syn_list_node) :
    ∀ fw, write_strength_synapses c src k ids syns fw
      = fw ++ syns.flatMap fun s =>
          (List.replicate (ids.count s.id) (strength_record c src k s s.id)).flatten := by
  induction syns with
  | nil => intro fw; simp [write_strength_synapses]
  | cons s syns ih =>
    intro fw
    rw [write_strength_synapses, ih, write_recorded_eq, List.flatMap_cons, List.append_assoc]

/-- The monitor with its loops unrolled: all the records of the external neurons, state
by state, then all the records of the NSAT neurons, state by state. -/
theorem update_synaptic_strength_monitor_file_unrolled (c : nsat_core) (fw : List field) :
    update_synaptic_strength_monitor_file c fw
      = fw ++
          (((List.range c.core_pms.num_states).flatMap fun k =>
              (List.range c.core_pms.num_inputs).flatMap fun i =>
                (ext_syn_list c i k).flatMap fun s =>
                  (List.replicate (c.core_pms.ext_syn_rec_ids.count s.id)
                    (strength_record c i k s s.id)).flatten)
            ++ ((List.range c.core_pms.num_states).flatMap fun k =>
              (List.range c.core_pms.num_neurons).flatMap fun i =>
                (nsat_syn_list c i k).flatMap fun s =>
                  (List.replicate (c.core_pms.nsat_syn_rec_ids.count s.id)
                    (strength_record c (toUInt64 (i + c.core_pms.num_inputs)) k s s.id)).flatten)) := by
  unfold update_synaptic_strength_monitor_file
  simp only [List.range_eq_range']
  rw [for_loop_append _ (fun k => (List.range' 0 c.core_pms.num_neurons).flatMap fun i =>
        (nsat_syn_list c i k).flatMap fun s =>
          (List.replicate (c.core_pms.nsat_syn_rec_ids.count s.id)
            (strength_record c (toUInt64 (i + c.core_pms.num_inputs)) k s s.id)).flatten),
      for_loop_append _ (fun k => (List.range' 0 c.core_pms.num_inputs).flatMap fun i =>
        (ext_syn_list c i k).flatMap fun s =>
          (List.replicate (c.core_pms.ext_syn_rec_ids.count s.id)
            (strength_record c i k s s.id)).flatten)]
  · simp
  · intro k fw
    exact for_loop_append _ _
      (fun i fw => write_strength_synapses_eq c i k c.core_pms.ext_syn_rec_ids
        (ext_syn_list c i k) fw) _ _ _
  · intro k fw
    exact for_loop_append _ _
      (fun i fw => write_strength_synapses_eq c (toUInt64 (i + c.core_pms.num_inputs)) k
        c.core_pms.nsat_syn_rec_ids (nsat_syn_list c i k) fw) _ _ _

/-- The fields written at a match are those of the record of the synapse, when the
destination does not overflow 64 bits. -/
theorem strength_record_eq_fields (c : nsat_core) (src k : Nat) (s : syn_list_node)
    (h : s.id + c.core_pms.num_inputs < 18446744073709551616) :
    strength_record c src k s s.id = strength_fields (strength_rec_of c src k s) := by
  unfold strength_record strength_fields strength_rec_of
  rw [toUInt64_of_lt _ h]

theorem replicate_fields_flatten (ids : List Nat) (c : nsat_core) (src k : Nat)
    (s : syn_list_node) (h : ∀ id ∈ ids, id + c.core_pms.num_inputs < 18446744073709551616) :
    (List.replicate (ids.count s.id) (strength_record c src k s s.id)).flatten
      = (List.replicate (ids.count s.id) (strength_rec_of c src k s)).flatMap
          strength_fields := by
  by_cases hm : s.id ∈ ids
  · rw [strength_record_eq_fields c src k s (h _ hm), List.flatMap_replicate]
  · rw [List.count_eq_zero.mpr hm]
    rfl

/-- The monitor in terms of records, when sources and destinations fit 64 bits. -/
theorem update_synaptic_strength_monitor_file_eq (c : nsat_core) (fw : List field)
    (hsrc : c.core_pms.num_inputs + c.core_pms.num_neurons ≤ 18446744073709551616)
    (hext : ∀ id ∈ c.core_pms.ext_syn_rec_ids,
      id + c.core_pms.num_inputs < 18446744073709551616)
    (hnsat : ∀ id ∈ c.core_pms.nsat_syn_rec_ids,
      id + c.core_pms.num_inputs < 18446744073709551616) :
    update_synaptic_strength_monitor_file c fw
      = fw ++ (ext_strength_records c ++ nsat_strength_records c).flatMap strength_fields := by
  rw [update_synaptic_strength_monitor_file_unrolled, List.flatMap_append]
  unfold ext_strength_records nsat_strength_records
  congr 2
  · rw [List.flatMap_assoc]
    apply flatMap_congr_of_mem
    intro k _
    rw [List.flatMap_assoc]
    apply flatMap_congr_of_mem
    intro i _
    rw [List.flatMap_assoc]
    apply flatMap_congr_of_mem
    intro s _
    exact replicate_fields_flatten _ c i k s hext
  · rw [List.flatMap_assoc]
    apply flatMap_congr_of_mem
    intro k _
    rw [List.flatMap_assoc]
    apply flatMap_congr_of_mem
    intro i hi
    rw [List.flatMap_assoc]
    apply flatMap_congr_of_mem
    intro s _
    have hi' := List.mem_range.mp hi
    rw [toUInt64_of_lt (i + c.core_pms.num_inputs) (by omega)]
    exact replicate_fields_flatten _ c _ k s hnsat

theorem mem_ext_strength_records (c : nsat_core) (r : strength_rec)
    (h : r ∈ ext_strength_records c) :
    ∃ k i, ∃ s ∈ ext_syn_list c i k,
      s.id ∈ c.core_pms.ext_syn_rec_ids ∧ r = strength_rec_of c i k s := by
  unfold ext_strength_records at h
  simp only [List.mem_flatMap, List.mem_replicate] at h
  obtain ⟨k, _, i, _, s, hs, hcount, hr⟩ := h
  exact ⟨k, i, s, hs, List.count_pos_iff.mp (Nat.pos_of_ne_zero hcount), hr⟩

theorem mem_nsat_strength_records (c : nsat_core) (r : strength_rec)
    (h : r ∈ nsat_strength_records c) :
    ∃ k i, ∃ s ∈ nsat_syn_list c i k,
      s.id ∈ c.core_pms.nsat_syn_rec_ids
        ∧ r = strength_rec_of c (i + c.core_pms.num_inputs) k s := by
  unfold nsat_strength_records at h
  simp only [List.mem_flatMap, List.mem_replicate] at h
  obtain ⟨k, _, i, _, s, hs, hcount, hr⟩ := h
  exact ⟨k, i, s, hs, List.count_pos_iff.mp (Nat.pos_of_ne_zero hcount), hr⟩

/-- C11: when sources and destinations fit 64 bits, what
`update_synaptic_strength_monitor_file` appends are records of synapses whose target id
is a member of the recorded-id list of their kind (the external list for the external
presynaptic neurons, the NSAT list for the NSAT ones): the destination of every record,
minus `num_inputs`, is in the list. When both recorded-id lists are empty nothing is
appended, whatever the synapses. -/
theorem strength_monitor_emits_only_listed_targets (c : nsat_core) (fw : List field)
    (hsrc : c.core_pms.num_inputs + c.core_pms.num_neurons ≤ 18446744073709551616)
    (hext : ∀ id ∈ c.core_pms.ext_syn_rec_ids,
      id + c.core_pms.num_inputs < 18446744073709551616)
    (hnsat : ∀ id ∈ c.core_pms.nsat_syn_rec_ids,
      id + c.core_pms.num_inputs < 18446744073709551616) :
    update_synaptic_strength_monitor_file c fw
      = fw ++ (ext_strength_records c ++ nsat_strength_records c).flatMap strength_fields ∧
    (∀ r ∈ ext_strength_records c,
      c.core_pms.num_inputs ≤ r.2.2.1 ∧
      r.2.2.1 - c.core_pms.num_inputs ∈ c.core_pms.ext_syn_rec_ids) ∧
    (∀ r ∈ nsat_strength_records c,
      c.core_pms.num_inputs ≤ r.2.2.1 ∧
      r.2.2.1 - c.core_pms.num_inputs ∈ c.core_pms.nsat_syn_rec_ids) ∧
    (∀ (c' : nsat_core) (fw' : List field),
      c'.core_pms.ext_syn_rec_ids = [] → c'.core_pms.nsat_syn_rec_ids = [] →
      update_synaptic_strength_monitor_file c' fw' = fw') := by
  refine ⟨update_synaptic_strength_monitor_file_eq c fw hsrc hext hnsat, ?_, ?_, ?_⟩
  · intro r hr
    obtain ⟨k, i, s, _, hmem, rfl⟩ := mem_ext_strength_records c r hr
    simp only [strength_rec_of]
    exact ⟨Nat.le_add_left _ _, by rw [Nat.add_sub_cancel]; exact hmem⟩
  · intro r hr
    obtain ⟨k, i, s, _, hmem, rfl⟩ := mem_nsat_strength_records c r hr
    simp only [strength_rec_of]
    exact ⟨Nat.le_add_left _ _, by rw [Nat.add_sub_cancel]; exact hmem⟩
  · intro c' fw' he hn
    rw [update_synaptic_strength_monitor_file_unrolled, he, hn]
    simp

theorem strength_monitor_emits_only_listed_targets_witness :
    monitor_core.core_pms.num_inputs + monitor_core.core_pms.num_neurons
      ≤ 18446744073709551616 ∧
    (∀ id ∈ monitor_core.core_pms.ext_syn_rec_ids,
      id + monitor_core.core_pms.num_inputs < 18446744073709551616) ∧
    (∀ id ∈ monitor_core.core_pms.nsat_syn_rec_ids,
      id + monitor_core.core_pms.num_inputs < 18446744073709551616) ∧
    (update_synaptic_strength_monitor_file monitor_core []
      = [] ++ (ext_strength_records monitor_core ++ nsat_strength_records monitor_core).flatMap
          strength_fields ∧
    (∀ r ∈ ext_strength_records monitor_core,
      monitor_core.core_pms.num_inputs ≤ r.2.2.1 ∧
      r.2.2.1 - monitor_core.core_pms.num_inputs ∈ monitor_core.core_pms.ext_syn_rec_ids) ∧
    (∀ r ∈ nsat_strength_records monitor_core,
      monitor_core.core_pms.num_inputs ≤ r.2.2.1 ∧
      r.2.2.1 - monitor_core.core_pms.num_inputs ∈ monitor_core.core_pms.nsat_syn_rec_ids) ∧
    (∀ (c' : nsat_core) (fw' : List field),
      c'.core_pms.ext_syn_rec_ids = [] → c'.core_pms.nsat_syn_rec_ids = [] →
      update_synaptic_strength_monitor_file c' fw' = fw')) ∧
    ext_strength_records monitor_core ++ nsat_strength_records monitor_core
      = [(5, 0, 7, 0, 43), (5, 2, 2, 0, 42)] :=
  ⟨by decide, by decide, by decide,
   strength_monitor_emits_only_listed_targets monitor_core [] (by decide) (by decide)
     (by decide),
   by decide⟩

/-- C12, as stated, fails for a recorded-id list with a repeated id: with the target 5
listed twice, the single external synapse to target 5 gets two records, and the file holds
three records while only two synapses have a listed target. -/
theorem strength_monitor_repeats_record_for_repeated_id :
    monitor_core_repeated.core_pms.ext_syn_rec_ids = [5, 5] ∧
    ext_syn_list monitor_core_repeated 0 0 = [{ id := 5, w_ptr := 1 }] ∧
    update_synaptic_strength_monitor_file monitor_core_repeated []
      = strength_fields (5, 0, 7, 0, 43) ++ strength_fields (5, 0, 7, 0, 43)
          ++ strength_fields (5, 2, 2, 0, 42) ∧
    listed_synapse_count monitor_core_repeated = 2 := by
  decide

/-- With a list without repeated ids, one record per occurrence is one record for each
synapse whose target is listed. -/
theorem flatMap_replicate_count_nodup {β : Type} (ids : List Nat) (hnd : ids.Nodup)
    (syns : List syn_list_node) (f : syn_list_node → β) :
    (syns.flatMap fun s => List.replicate (ids.count s.id) (f s))
      = (syns.filter fun s => s.id ∈ ids).map f := by
  induction syns with
  | nil => rfl
  | cons s syns ih =>
    rw [List.flatMap_cons, ih, List.count_eq_of_nodup hnd, List.filter_cons]
    by_cases h : s.id ∈ ids
    · simp [h]
    · simp [h]

theorem length_flatMap_flatMap_map {α β : Type} (l m : List Nat) (g : Nat → Nat → List α)
    (h : Nat → Nat → α → β) :
    (l.flatMap fun k => m.flatMap fun i => (g k i).map (h k i)).length
      = (l.map fun k => (m.map fun i => (g k i).length).sum).sum := by
  have inner : ∀ (k : Nat) (m' : List Nat),
      (m'.flatMap fun i => (g k i).map (h k i)).length
        = (m'.map fun i => (g k i).length).sum := by
    intro k m'
    induction m' with
    | nil => rfl
    | cons b m' ihm =>
      rw [List.flatMap_cons, List.length_append, ihm, List.map_cons, List.sum_cons,
        List.length_map]
  induction l with
  | nil => rfl
  | cons a l ih =>
    rw [List.flatMap_cons, List.length_append, ih, List.map_cons, List.sum_cons, inner]

/-- C12, amended: when sources and destinations fit 64 bits,
`update_synaptic_strength_monitor_file` appends, for each synapse, one record
`(curr_time, source_id, target_id + num_inputs, state_id, weight at the weight reference)`
for every occurrence of the synapse's target id in the recorded-id list of its kind, with
`source_id = i` for the external neuron `i` and `i + num_inputs` for the NSAT neuron `i`.
When the recorded-id lists have no repeated id this is exactly one record for each
synapse whose target id appears in the list, and the number of records equals the number
of synapses with a listed target. -/
theorem strength_monitor_one_record_per_occurrence (c : nsat_core) (fw : List field)
    (hsrc : c.core_pms.num_inputs + c.core_pms.num_neurons ≤ 18446744073709551616)
    (hext : ∀ id ∈ c.core_pms.ext_syn_rec_ids,
      id + c.core_pms.num_inputs < 18446744073709551616)
    (hnsat : ∀ id ∈ c.core_pms.nsat_syn_rec_ids,
      id + c.core_pms.num_inputs < 18446744073709551616) :
    update_synaptic_strength_monitor_file c fw
      = fw ++ (ext_strength_records c ++ nsat_strength_records c).flatMap strength_fields ∧
    (c.core_pms.ext_syn_rec_ids.Nodup → c.core_pms.nsat_syn_rec_ids.Nodup →
      update_synaptic_strength_monitor_file c fw
        = fw ++ (ext_listed_records c ++ nsat_listed_records c).flatMap strength_fields ∧
      (ext_listed_records c ++ nsat_listed_records c).length = listed_synapse_count c) := by
  have heq := update_synaptic_strength_monitor_file_eq c fw hsrc hext hnsat
  refine ⟨heq, ?_⟩
  intro hne hnn
  have h1 : ext_strength_records c = ext_listed_records c := by
    unfold ext_strength_records ext_listed_records
    apply flatMap_congr_of_mem
    intro k _
    apply flatMap_congr_of_mem
    intro i _
    exact flatMap_replicate_count_nodup _ hne _ _
  have h2 : nsat_strength_records c = nsat_listed_records c := by
    unfold nsat_strength_records nsat_listed_records
    apply flatMap_congr_of_mem
    intro k _
    apply flatMap_congr_of_mem
    intro i _
    exact flatMap_replicate_count_nodup _ hnn _ _
  constructor
  · rw [heq, h1, h2]
  · rw [List.length_append]
    unfold ext_listed_records nsat_listed_records listed_synapse_count
    rw [length_flatMap_flatMap_map, length_flatMap_flatMap_map]

theorem strength_monitor_one_record_per_occurrence_witness :
    monitor_core.core_pms.num_inputs + monitor_core.core_pms.num_neurons
      ≤ 18446744073709551616 ∧
    (∀ id ∈ monitor_core.core_pms.ext_syn_rec_ids,
      id + monitor_core.core_pms.num_inputs < 18446744073709551616) ∧
    (∀ id ∈ monitor_core.core_pms.nsat_syn_rec_ids,
      id + monitor_core.core_pms.num_inputs < 18446744073709551616) ∧
    monitor_core.core_pms.ext_syn_rec_ids.Nodup ∧
    monitor_core.core_pms.nsat_syn_rec_ids.Nodup ∧
    (update_synaptic_strength_monitor_file monitor_core []
      = [] ++ (ext_strength_records monitor_core ++ nsat_strength_records monitor_core).flatMap
          strength_fields ∧
    (monitor_core.core_pms.ext_syn_rec_ids.Nodup →
      monitor_core.core_pms.nsat_syn_rec_ids.Nodup →
      update_synaptic_strength_monitor_file monitor_core []
        = [] ++ (ext_listed_records monitor_core ++ nsat_listed_records monitor_core).flatMap
            strength_fields ∧
      (ext_listed_records monitor_core ++ nsat_listed_records monitor_core).length
        = listed_synapse_count monitor_core)) ∧
    ext_listed_records monitor_core ++ nsat_listed_records monitor_core
      = [(5, 0, 7, 0, 43), (5, 2, 2, 0, 42)] :=
  ⟨by decide, by decide, by decide, by decide, by decide,
   strength_monitor_one_record_per_occurrence monitor_core [] (by decide) (by decide)
     (by decide),
   by decide⟩

/-! ## The online spike stream, the statistics and the shared-memory dump -/

/-- What `write_spikes_events_online` appends for a single core. -/
theorem write_spikes_events_online_single (mem : Nat → spk_list_memory) (c : nsat_core)
    (h : c.g_pms.num_cores = 1) :
    write_spikes_events_online mem [c]
      = [[c.curr_time, (mem 0).before_length]
          ++ (mem 0).from_array.take (toUInt64 (c.mon_events.length + 18446744073709551615))] := by
  unfold write_spikes_events_online
  simp [h, for_loop, write_spikes_events_online_body]

/-- C16, evaluated on one core whose recorded monitor events are the ids `[3, 7]` (length
2) at time 5: whatever the memory next to the list holds, the record appended is not
`(5, 2, 3, 7)`; it has at most three words, the second read from the address before the
member `length` and the rest from the address of the member `array`. -/
theorem write_spikes_events_online_misses_the_events :
    monitor_core.mon_events.array = [3, 7] ∧
    monitor_core.mon_events.length = 2 ∧
    (∀ mem : Nat → spk_list_memory,
      write_spikes_events_online mem [monitor_core] ≠ [[5, 2, 3, 7]]) ∧
    write_spikes_events_online
        (fun _ => { before_length := 94066271, from_array := [94066239, 94066271, 2] })
        [monitor_core]
      = [[5, 94066271, 94066239]] := by
  refine ⟨by decide, by decide, ?_, by decide⟩
  intro mem h
  rw [write_spikes_events_online_single mem monitor_core (by decide)] at h
  have hl := congrArg (fun l => (l.map List.length)) h
  have h1 : toUInt64 (monitor_core.mon_events.length + 18446744073709551615) = 1 := by decide
  rw [h1] at hl
  simp only [List.map_cons, List.map_nil, List.length_append, List.length_cons,
    List.length_nil, List.length_take, List.cons.injEq, and_true] at hl
  omega

theorem write_spike_statistics_core_eq (c : nsat_core) (fp : List Nat) :
    write_spike_statistics_core c fp
      = fp ++ (List.range c.core_pms.num_neurons).flatMap fun j =>
          [j, (c.nsat_neuron.getD j default).spk_counter] := by
  unfold write_spike_statistics_core
  rw [List.range_eq_range']
  exact for_loop_append _ _ (fun j fp => by simp) _ _ _

/-- C18: when the statistics file can be opened, `write_spike_statistics` writes a single
file that is, for every core `p` from 0 to `num_cores - 1` in order, the word `p` followed
by the pair (`j`, spike counter of NSAT neuron `j` of core `p`) for every `j` from 0 to
`num_neurons - 1` in order; its length is the sum over the cores of `1 + 2 * num_neurons`
words. -/
theorem write_spike_statistics_layout (core : List nsat_core) (num_cores : Nat) :
    write_spike_statistics true core num_cores
      = { files := [(List.range num_cores).flatMap fun p =>
            p :: (List.range (core.getD p default).core_pms.num_neurons).flatMap fun j =>
              [j, ((core.getD p default).nsat_neuron.getD j default).spk_counter]],
          exit_status := none } ∧
    ((List.range num_cores).flatMap fun p =>
        p :: (List.range (core.getD p default).core_pms.num_neurons).flatMap fun j =>
          [j, ((core.getD p default).nsat_neuron.getD j default).spk_counter]).length
      = ((List.range num_cores).map fun p =>
          1 + 2 * (core.getD p default).core_pms.num_neurons).sum := by
  constructor
  · unfold write_spike_statistics
    rw [if_pos rfl, List.range_eq_range',
      for_loop_append _ (fun p =>
        p :: (List.range (core.getD p default).core_pms.num_neurons).flatMap fun j =>
          [j, ((core.getD p default).nsat_neuron.getD j default).spk_counter])
        (fun p fp => by rw [write_spike_statistics_core_eq]; simp)]
    simp
  · rw [List.length_flatMap]
    congr 1
    apply List.map_congr_left
    intro p _
    simp only [Function.comp, List.length_cons]
    rw [length_flatMap_const _
      (fun j => [j, ((core.getD p default).nsat_neuron.getD j default).spk_counter]) 2
      (fun _ => rfl), List.length_range]
    omega

/-- The dump written for core `p`: `sm_size` four-byte elements of its shared memory. -/
theorem write_shared_memories_loop_eq (can_open : Nat → Bool) (core : List nsat_core) :
    ∀ (n p : Nat) (files : List (Nat × List Int)),
      (∀ q, p ≤ q → q < p + n →
        (core.getD q default).mon_pms.mon_final_weights = true → can_open q = true) →
      write_shared_memories_loop can_open core n p files
        = { files := files ++
              ((List.range' p n).filter fun q =>
                (core.getD q default).mon_pms.mon_final_weights).map fun q =>
                  (q, ((core.getD q default).shared_memory.take
                    (core.getD q default).sm_size).map toInt32),
            exit_status := none } := by
  intro n
  induction n with
  | zero => intro p files _; simp [write_shared_memories_loop]
  | succ n ih =>
    intro p files h
    rw [write_shared_memories_loop, List.range'_succ, List.filter_cons]
    by_cases hf : (core.getD p default).mon_pms.mon_final_weights = true
    · rw [if_pos hf, if_pos (h p (Nat.le_refl _) (by omega) hf), if_pos hf,
        ih (p + 1) _ (fun q h1 h2 => h q (by omega) (by omega))]
      simp
    · rw [if_neg hf, if_neg hf, ih (p + 1) _ (fun q h1 h2 => h q (by omega) (by omega))]

theorem map_toInt32_of_fits (l : List Int)
    (h : ∀ w ∈ l, -2147483648 ≤ w ∧ w < 2147483648) : l.map toInt32 = l := by
  induction l with
  | nil => rfl
  | cons a l ih =>
    rw [List.map_cons, toInt32_of_fits a (h a (List.mem_cons_self _ _)).1
      (h a (List.mem_cons_self _ _)).2, ih (fun w hw => h w (List.mem_cons_of_mem _ hw))]

/-- C19: when the file of every flagged core can be opened, `write_shared_memories` writes
a file for core `p < num_cores` if and only if the flag `mon_final_weights` of core `p` is
set; the file holds the first `sm_size` elements of the core's shared memory as four-byte
integers, so when `sm_size` is the size of the buffer and the elements fit 32 bits,
reading `sm_size` integers back yields the buffer unchanged. -/
theorem write_shared_memories_dump (can_open : Nat → Bool) (core : List nsat_core)
    (num_cores : Nat)
    (hopen : ∀ p < num_cores,
      (core.getD p default).mon_pms.mon_final_weights = true → can_open p = true) :
    (write_shared_memories can_open core num_cores).exit_status = none ∧
    ∀ p < num_cores,
      ((∃ file, (p, file) ∈ (write_shared_memories can_open core num_cores).files)
        ↔ (core.getD p default).mon_pms.mon_final_weights = true) ∧
      ∀ file, (p, file) ∈ (write_shared_memories can_open core num_cores).files →
        file = ((core.getD p default).shared_memory.take (core.getD p default).sm_size).map
          toInt32 ∧
        ((core.getD p default).sm_size = (core.getD p default).shared_memory.length →
          (∀ w ∈ (core.getD p default).shared_memory, -2147483648 ≤ w ∧ w < 2147483648) →
          file = (core.getD p default).shared_memory ∧
          file.take (core.getD p default).sm_size = (core.getD p default).shared_memory) := by
  have heq := write_shared_memories_loop_eq can_open core num_cores 0 []
    (fun q _ h2 hf => hopen q (by omega) hf)
  unfold write_shared_memories
  rw [heq]
  refine ⟨rfl, ?_⟩
  intro p hp
  simp only [List.nil_append, List.mem_map, List.mem_filter, List.mem_range', Prod.mk.injEq]
  constructor
  · constructor
    · rintro ⟨file, q, ⟨_, hq⟩, hqp, _⟩
      rw [← hqp]; exact hq
    · intro hf
      exact ⟨_, p, ⟨⟨p, by omega, by omega⟩, hf⟩, rfl, rfl⟩
  · rintro file ⟨q, _, hqp, hfile⟩
    subst hqp
    refine ⟨hfile.symm, ?_⟩
    intro hsize hfits
    rw [← hfile, hsize, List.take_length, map_toInt32_of_fits _ hfits]
    exact ⟨rfl, List.take_length _⟩

theorem write_shared_memories_dump_witness :
    (∀ p < 2, ([core_a, monitor_core].getD p default).mon_pms.mon_final_weights = true →
      (fun _ : Nat => true) p = true) ∧
    ((write_shared_memories (fun _ => true) [core_a, monitor_core] 2).exit_status = none ∧
    ∀ p < 2,
      ((∃ file, (p, file) ∈ (write_shared_memories (fun _ => true) [core_a, monitor_core]
          2).files)
        ↔ ([core_a, monitor_core].getD p default).mon_pms.mon_final_weights = true) ∧
      ∀ file, (p, file) ∈ (write_shared_memories (fun _ => true) [core_a, monitor_core]
          2).files →
        file = (([core_a, monitor_core].getD p default).shared_memory.take
          ([core_a, monitor_core].getD p default).sm_size).map toInt32 ∧
        (([core_a, monitor_core].getD p default).sm_size
            = ([core_a, monitor_core].getD p default).shared_memory.length →
          (∀ w ∈ ([core_a, monitor_core].getD p default).shared_memory,
            -2147483648 ≤ w ∧ w < 2147483648) →
          file = ([core_a, monitor_core].getD p default).shared_memory ∧
          file.take ([core_a, monitor_core].getD p default).sm_size
            = ([core_a, monitor_core].getD p default).shared_memory)) ∧
    write_shared_memories (fun _ => true) [core_a, monitor_core] 2
      = { files := [(1, [42, 43])], exit_status := none } :=
  ⟨by decide,
   write_shared_memories_dump (fun _ => true) [core_a, monitor_core] 2 (by decide),
   by decide⟩

/-! ## Failure to open an output file -/

theorem write_final_weights_loop_exits (can_open : Nat → Bool) (core : List nsat_core) :
    ∀ (n p : Nat) (files : List (List Int)),
      (∃ q, p ≤ q ∧ q < p + n ∧ can_open q = false) →
      (write_final_weights_loop can_open core n p files).exit_status = some (-1) := by
  intro n
  induction n with
  | zero => rintro p files ⟨q, h1, h2, _⟩; omega
  | succ n ih =>
    rintro p files ⟨q, h1, h2, h3⟩
    rw [write_final_weights_loop]
    by_cases hp : can_open p = true
    · rw [if_pos hp]
      have hne : q ≠ p := by
        intro h; rw [h, hp] at h3; exact Bool.noConfusion h3
      exact ih (p + 1) _ ⟨q, by omega, by omega, h3⟩
    · rw [if_neg hp]

theorem write_spikes_events_loop_exits (can_open : Nat → Bool) (core : List nsat_core) :
    ∀ (n p : Nat) (files : List (List Nat)),
      (∃ q, p ≤ q ∧ q < p + n ∧ can_open q = false) →
      (write_spikes_events_loop can_open core n p files).exit_status = some (-1) := by
  intro n
  induction n with
  | zero => rintro p files ⟨q, h1, h2, _⟩; omega
  | succ n ih =>
    rintro p files ⟨q, h1, h2, h3⟩
    rw [write_spikes_events_loop]
    by_cases hp : can_open p = true
    · rw [if_pos hp]
      have hne : q ≠ p := by
        intro h; rw [h, hp] at h3; exact Bool.noConfusion h3
      exact ih (p + 1) _ ⟨q, by omega, by omega, h3⟩
    · rw [if_neg hp]

theorem write_shared_memories_loop_exits (can_open : Nat → Bool) (core : List nsat_core) :
    ∀ (n p : Nat) (files : List (Nat × List Int)),
      (∃ q, p ≤ q ∧ q < p + n ∧ (core.getD q default).mon_pms.mon_final_weights = true ∧
        can_open q = false) →
      (write_shared_memories_loop can_open core n p files).exit_status = some (-1) := by
  intro n
  induction n with
  | zero => rintro p files ⟨q, h1, h2, _⟩; omega
  | succ n ih =>
    rintro p files ⟨q, h1, h2, hf, h3⟩
    rw [write_shared_memories_loop]
    by_cases hfp : (core.getD p default).mon_pms.mon_final_weights = true
    · rw [if_pos hfp]
      by_cases hp : can_open p = true
      · rw [if_pos hp]
        have hne : q ≠ p := by
          intro h; rw [h, hp] at h3; exact Bool.noConfusion h3
        exact ih (p + 1) _ ⟨q, by omega, by omega, hf, h3⟩
      · rw [if_neg hp]
    · rw [if_neg hfp]
      have hne : q ≠ p := by
        intro h; rw [h] at hf; exact hfp hf
      exact ih (p + 1) _ ⟨q, by omega, by omega, hf, h3⟩

/-- C20: when the statistics file cannot be opened, `write_spike_statistics` writes nothing
and returns normally; `write_final_weights`, `write_spikes_events` and
`write_shared_memories` (for a core whose flag is set) end with `exit(-1)` when the file of
a core `p < num_cores` cannot be opened. -/
theorem only_spike_statistics_survives_open_failure (core0 : List nsat_core) (n0 : Nat)
    (can_open : Nat → Bool) (core : List nsat_core) (num_cores p : Nat)
    (hp : p < num_cores) (hfail : can_open p = false)
    (hflag : (core.getD p default).mon_pms.mon_final_weights = true) :
    write_spike_statistics false core0 n0 = { files := [], exit_status := none } ∧
    (write_final_weights can_open core num_cores).exit_status = some (-1) ∧
    (write_spikes_events can_open core num_cores).exit_status = some (-1) ∧
    (write_shared_memories can_open core num_cores).exit_status = some (-1) := by
  refine ⟨rfl, ?_, ?_, ?_⟩
  · exact write_final_weights_loop_exits can_open core num_cores 0 []
      ⟨p, Nat.zero_le _, by omega, hfail⟩
  · exact write_spikes_events_loop_exits can_open core num_cores 0 []
      ⟨p, Nat.zero_le _, by omega, hfail⟩
  · exact write_shared_memories_loop_exits can_open core num_cores 0 []
      ⟨p, Nat.zero_le _, by omega, hflag, hfail⟩

theorem only_spike_statistics_survives_open_failure_witness :
    1 < 2 ∧ (fun q : Nat => decide (q = 0)) 1 = false ∧
    ([core_a, monitor_core].getD 1 default).mon_pms.mon_final_weights = true ∧
    (write_spike_statistics false [core_a, monitor_core] 2
      = { files := [], exit_status := none } ∧
    (write_final_weights (fun q => decide (q = 0)) [core_a, monitor_core] 2).exit_status
      = some (-1) ∧
    (write_spikes_events (fun q => decide (q = 0)) [core_a, monitor_core] 2).exit_status
      = some (-1) ∧
    (write_shared_memories (fun q => decide (q = 0)) [core_a, monitor_core] 2).exit_status
      = some (-1)) :=
  ⟨by decide, by decide, by decide,
   only_spike_statistics_survives_open_failure [core_a, monitor_core] 2
     (fun q => decide (q = 0)) [core_a, monitor_core] 2 1 (by decide) (by decide)
     (by decide)⟩

/-! ## Opening and closing the monitor files -/

theorem getD_set_fs (core : List nsat_core) (p q : Nat) (fp : Option Nat) :
    (set_fs core p fp).getD q default =
      if q = p ∧ p < core.length then
        { core.getD p default with files := { (core.getD p default).files with fs := fp } }
      else core.getD q default := by
  unfold set_fs
  simp only [List.getD_eq_getElem?_getD, List.getElem?_set]
  by_cases h : p = q
  · subst h
    by_cases hl : p < core.length
    · simp [hl]
    · simp [hl, List.getElem?_eq_none (Nat.le_of_not_lt hl)]
  · have h' : ¬ q = p := fun e => h e.symm
    simp [h, h']

theorem getD_set_fsa (core : List nsat_core) (p q : Nat) (fp : Option Nat) :
    (set_fsa core p fp).getD q default =
      if q = p ∧ p < core.length then
        { core.getD p default with files := { (core.getD p default).files with fsa := fp } }
      else core.getD q default := by
  unfold set_fsa
  simp only [List.getD_eq_getElem?_getD, List.getElem?_set]
  by_cases h : p = q
  · subst h
    by_cases hl : p < core.length
    · simp [hl]
    · simp [hl, List.getElem?_eq_none (Nat.le_of_not_lt hl)]
  · have h' : ¬ q = p := fun e => h e.symm
    simp [h, h']

theorem getD_set_fw (core : List nsat_core) (p q : Nat) (fp : Option Nat) :
    (set_fw core p fp).getD q default =
      if q = p ∧ p < core.length then
        { core.getD p default with files := { (core.getD p default).files with fw := fp } }
      else core.getD q default := by
  unfold set_fw
  simp only [List.getD_eq_getElem?_getD, List.getElem?_set]
  by_cases h : p = q
  · subst h
    by_cases hl : p < core.length
    · simp [hl]
    · simp [hl, List.getElem?_eq_none (Nat.le_of_not_lt hl)]
  · have h' : ¬ q = p := fun e => h e.symm
    simp [h, h']

theorem length_set_fs (core : List nsat_core) (p : Nat) (fp : Option Nat) :
    (set_fs core p fp).length = core.length := by
  simp [set_fs]

theorem length_set_fsa (core : List nsat_core) (p : Nat) (fp : Option Nat) :
    (set_fsa core p fp).length = core.length := by
  simp [set_fsa]

theorem length_set_fw (core : List nsat_core) (p : Nat) (fp : Option Nat) :
    (set_fw core p fp).length = core.length := by
  simp [set_fw]

/-- A successful `open_monitor_file` stores the fresh handle `t.next`. -/
theorem open_and_store_eq (can_open : file_name → Bool) (fname : file_name)
    (set : List nsat_core → Nat → Option Nat → List nsat_core) (p : Nat)
    (core : List nsat_core) (t : file_table)
    (hopen : can_open fname = true) (hrun : t.exited = false) :
    open_and_store can_open fname set p (core, t)
      = (set core p (some t.next),
         { next := t.next + 1, opened := t.opened ++ [t.next], closed := t.closed,
           exited := false }) := by
  unfold open_and_store open_monitor_file fopen file_test
  simp [hrun, hopen]

/-- What `fclose` is called on for core `p`. -/
theorem close_cores_monitor_files_body_eq (core : List nsat_core) (p : Nat) (t : file_table)
    (hrun : t.exited = false) :
    close_cores_monitor_files_body core p t
      = { next := t.next, opened := t.opened,
          closed := t.closed ++ closed_handles (core.getD p default), exited := false } := by
  unfold close_cores_monitor_files_body closed_handles fclose
  cases t with
  | mk next opened closed exited =>
    simp only at hrun
    subst hrun
    cases h1 : (core.getD p default).mon_pms.mon_states <;>
    cases h2 : (core.getD p default).mon_pms.mon_states_fpga <;>
    cases h3 : (core.getD p default).mon_pms.mon_weights <;>
    simp

theorem close_cores_monitor_files_loop_eq (core : List nsat_core) :
    ∀ (n a : Nat) (t : file_table), t.exited = false →
      for_loop (close_cores_monitor_files_body core) n a t
        = { next := t.next, opened := t.opened,
            closed := t.closed
              ++ (List.range' a n).flatMap fun p => closed_handles (core.getD p default),
            exited := false } := by
  intro n
  induction n with
  | zero =>
    intro a t hrun
    cases t with
    | mk next opened closed exited =>
      simp only at hrun
      subst hrun
      simp [for_loop]
  | succ n ih =>
    intro a t hrun
    rw [for_loop, close_cores_monitor_files_body_eq core a t hrun, ih _ _ rfl,
      List.range'_succ, List.flatMap_cons]
    simp

/-- One iteration of `open_cores_monitor_files` in a build without `DAVIS`, when every
file can be opened: fresh handles are opened and stored in core `p`, and they are the
handles `close_cores_monitor_files` will close for that core. -/
theorem open_cores_monitor_files_body_spec (can_open : file_name → Bool)
    (hopen : ∀ name, can_open name = true) (p : Nat) (core : List nsat_core) (t : file_table)
    (hrun : t.exited = false) (hp : p < core.length) :
    ∃ k,
      (open_cores_monitor_files_body false can_open p (core, t)).2
        = { next := t.next + k, opened := t.opened ++ List.range' t.next k,
            closed := t.closed, exited := false } ∧
      (open_cores_monitor_files_body false can_open p (core, t)).1.length = core.length ∧
      (∀ q, q ≠ p →
        (open_cores_monitor_files_body false can_open p (core, t)).1.getD q default
          = core.getD q default) ∧
      ((open_cores_monitor_files_body false can_open p (core, t)).1.getD p default).mon_pms
        = (core.getD p default).mon_pms ∧
      closed_handles
          ((open_cores_monitor_files_body false can_open p (core, t)).1.getD p default)
        = (List.range' t.next k).map some := by
  cases t with
  | mk next opened closed exited =>
    simp only at hrun
    subst hrun
    unfold open_cores_monitor_files_body
    refine ⟨(if (core.getD p default).mon_pms.mon_states then 1 else 0)
      + (if (core.getD p default).mon_pms.mon_states_fpga then 1 else 0)
      + (if (core.getD p default).mon_pms.mon_weights then 1 else 0), ?_⟩
    cases h1 : (core.getD p default).mon_pms.mon_states <;>
    cases h2 : (core.getD p default).mon_pms.mon_states_fpga <;>
    cases h3 : (core.getD p default).mon_pms.mon_weights <;>
    simp [-List.getD_eq_getElem?_getD, open_and_store_eq, hopen, getD_set_fs, getD_set_fsa,
      getD_set_fw, length_set_fs, length_set_fsa, length_set_fw, closed_handles, h1, h2, h3,
      hp, List.range'_succ]
    all_goals (intro q hq; simp [hq])

/-- The loop of `open_cores_monitor_files` in a build without `DAVIS`, when every file can
be opened: the handles opened are fresh and consecutive, and they are, in the same order,
the handles `close_cores_monitor_files` will close for the cores visited. -/
theorem open_cores_monitor_files_loop_spec (can_open : file_name → Bool)
    (hopen : ∀ name, can_open name = true) :
    ∀ (n a : Nat) (core : List nsat_core) (t : file_table),
      t.exited = false → a + n ≤ core.length →
      ∃ k,
        (for_loop (open_cores_monitor_files_body false can_open) n a (core, t)).2
          = { next := t.next + k, opened := t.opened ++ List.range' t.next k,
              closed := t.closed, exited := false } ∧
        (for_loop (open_cores_monitor_files_body false can_open) n a (core, t)).1.length
          = core.length ∧
        ((List.range' a n).flatMap fun p => closed_handles
            ((for_loop (open_cores_monitor_files_body false can_open) n a (core, t)).1.getD p
              default))
          = (List.range' t.next k).map some ∧
        (∀ q, q < a →
          (for_loop (open_cores_monitor_files_body false can_open) n a (core, t)).1.getD q
              default
            = core.getD q default) := by
  intro n
  induction n with
  | zero =>
    intro a core t hrun _
    refine ⟨0, ?_, rfl, rfl, fun _ _ => rfl⟩
    cases t with
    | mk next opened closed exited =>
      simp only at hrun
      subst hrun
      simp [for_loop]
  | succ n ih =>
    intro a core t hrun hle
    have hstep : for_loop (open_cores_monitor_files_body false can_open) (n + 1) a (core, t)
        = for_loop (open_cores_monitor_files_body false can_open) n (a + 1)
            (open_cores_monitor_files_body false can_open a (core, t)) := rfl
    rw [hstep]
    have hbody := open_cores_monitor_files_body_spec can_open hopen a core t hrun (by omega)
    generalize open_cores_monitor_files_body false can_open a (core, t) = st at hbody ⊢
    obtain ⟨core1, t1⟩ := st
    obtain ⟨k1, ht1, hl1, hq1, _, hc1⟩ := hbody
    simp only at ht1 hl1 hq1 hc1
    subst ht1
    obtain ⟨k2, ht2, hl2, hf2, hq2⟩ := ih (a + 1) core1
      { next := t.next + k1, opened := t.opened ++ List.range' t.next k1, closed := t.closed,
        exited := false } rfl (by rw [hl1]; omega)
    simp only at ht2 hf2
    refine ⟨k1 + k2, ?_, ?_, ?_, ?_⟩
    · rw [ht2, List.append_assoc, List.range'_append_1, Nat.add_assoc, Nat.add_comm k2 k1]
    · rw [hl2, hl1]
    · rw [List.range'_succ, List.flatMap_cons, hf2, hq2 a (by omega), hc1,
        ← List.map_append, List.range'_append_1, Nat.add_comm k2 k1]
    · intro q hq
      rw [hq2 q (by omega), hq1 q (by omega)]

/-- C17, as stated, fails in a build with `DAVIS == 1`: `open_cores_monitor_files` then
also opens the online spike files (handles 2, 3, 5 and 6 below, the last two kept in
`event_file`), and `close_cores_monitor_files` closes only the state, FPGA-state and
weight handles 0, 1 and 4. -/
theorem close_cores_monitor_files_leaves_event_files_open :
    (open_cores_monitor_files true (fun _ => true) flagged_cores 2 {}).2.opened
      = [0, 1, 2, 3, 4, 5, 6] ∧
    (open_cores_monitor_files true (fun _ => true) flagged_cores 2 {}).1.map
        (fun c => c.files.event_file)
      = [some 5, some 6] ∧
    (close_cores_monitor_files
        (open_cores_monitor_files true (fun _ => true) flagged_cores 2 {}).1 2
        (open_cores_monitor_files true (fun _ => true) flagged_cores 2 {}).2).closed
      = [some 0, some 1, some 4] := by
  decide

/-- C17, amended: in a build without `DAVIS`, for every assignment of the monitor flags to
the cores, when every file can be opened, `open_cores_monitor_files` followed by
`close_cores_monitor_files` with the same flags closes exactly the handles that were
opened (state, FPGA state and weight files): the handles opened are `k` distinct fresh
handles, and the handles closed are these same handles, each once, in the same order. -/
theorem open_then_close_monitor_files (can_open : file_name → Bool) (core : List nsat_core)
    (num_cores : Nat) (t : file_table)
    (hopen : ∀ name, can_open name = true)
    (hlen : num_cores ≤ core.length)
    (hrun : t.exited = false) :
    ∃ k,
      (open_cores_monitor_files false can_open core num_cores t).2
        = { next := t.next + k, opened := t.opened ++ List.range' t.next k,
            closed := t.closed, exited := false } ∧
      (List.range' t.next k).Nodup ∧
      close_cores_monitor_files
          (open_cores_monitor_files false can_open core num_cores t).1 num_cores
          (open_cores_monitor_files false can_open core num_cores t).2
        = { next := t.next + k, opened := t.opened ++ List.range' t.next k,
            closed := t.closed ++ (List.range' t.next k).map some, exited := false } := by
  obtain ⟨k, ht, _, hf, _⟩ :=
    open_cores_monitor_files_loop_spec can_open hopen num_cores 0 core t hrun (by omega)
  refine ⟨k, ht, List.nodup_range' _ _, ?_⟩
  unfold close_cores_monitor_files
  rw [close_cores_monitor_files_loop_eq _ _ _ _ (by
    unfold open_cores_monitor_files; rw [ht])]
  unfold open_cores_monitor_files
  rw [hf, ht]

theorem open_then_close_monitor_files_witness :
    (∀ name : file_name, (fun _ : file_name => true) name = true) ∧
    2 ≤ flagged_cores.length ∧
    ({} : file_table).exited = false ∧
    (∃ k,
      (open_cores_monitor_files false (fun _ => true) flagged_cores 2 {}).2
        = { next := ({} : file_table).next + k,
            opened := ({} : file_table).opened ++ List.range' ({} : file_table).next k,
            closed := ({} : file_table).closed, exited := false } ∧
      (List.range' ({} : file_table).next k).Nodup ∧
      close_cores_monitor_files
          (open_cores_monitor_files false (fun _ => true) flagged_cores 2 {}).1 2
          (open_cores_monitor_files false (fun _ => true) flagged_cores 2 {}).2
        = { next := ({} : file_table).next + k,
            opened := ({} : file_table).opened ++ List.range' ({} : file_table).next k,
            closed := ({} : file_table).closed
              ++ (List.range' ({} : file_table).next k).map some,
            exited := false }) ∧
    close_cores_monitor_files
        (open_cores_monitor_files false (fun _ => true) flagged_cores 2 {}).1 2
        (open_cores_monitor_files false (fun _ => true) flagged_cores 2 {}).2
      = { next := 3, opened := [0, 1, 2], closed := [some 0, some 1, some 2],
          exited := false } :=
  ⟨fun _ => rfl, by decide, by decide,
   open_then_close_monitor_files (fun _ => true) flagged_cores 2 {} (fun _ => rfl)
     (by decide) (by decide),
   by decide⟩

/-! ## The stream cursor at an invalid entry -/

/-- The stream after the loop of `get_external_events` has met an invalid entry: one word
has been read when the core id is out of range, two when the neuron id is. -/
theorem get_external_events_loop_break (nc ct t n cid nid pos : Nat) (bad : Nat × Nat)
    (tail : List Nat) (core : List nsat_core) :
    (nc ≤ bad.1 →
      (get_external_events_loop nc ct t (n + 1) cid nid ⟨pos, bad.1 :: bad.2 :: tail⟩ core).1
        = ⟨pos + 1, bad.2 :: tail⟩) ∧
    (bad.1 < nc → (core.getD bad.1 default).core_pms.num_inputs ≤ bad.2 →
      (get_external_events_loop nc ct t (n + 1) cid nid ⟨pos, bad.1 :: bad.2 :: tail⟩ core).1
        = ⟨pos + 1 + 1, tail⟩) := by
  constructor
  · intro h1
    rw [get_external_events_loop]
    simp only [fread, ge_iff_le]
    rw [if_pos h1]
  · intro h1 h2
    rw [get_external_events_loop]
    simp only [fread, ge_iff_le]
    rw [if_neg (Nat.not_le_of_lt h1), if_pos h2]

/-- The stream after `get_external_events` on a group whose first invalid entry is `bad`,
at index `pre.length`. -/
theorem get_external_events_stream_at_first_invalid (l : locals) (pos : Nat)
    (rest : List Nat) (core : List nsat_core) (ct nc t : Nat) (pre post : List (Nat × Nat))
    (bad : Nat × Nat)
    (hon : (core.getD 0 default).core_pms.is_ext_evts_on = true)
    (hv : ∀ e ∈ pre, valid_entry core nc e) :
    (nc ≤ bad.1 →
      (get_external_events l ⟨pos, record_group t (pre ++ bad :: post) ++ rest⟩ core ct nc).1
        = ⟨pos + (2 + 2 * pre.length + 1),
           bad.2 :: (post.flatMap (fun e => [e.1, e.2]) ++ rest)⟩) ∧
    (bad.1 < nc → (core.getD bad.1 default).core_pms.num_inputs ≤ bad.2 →
      (get_external_events l ⟨pos, record_group t (pre ++ bad :: post) ++ rest⟩ core ct nc).1
        = ⟨pos + (2 + 2 * pre.length + 2), post.flatMap (fun e => [e.1, e.2]) ++ rest⟩) := by
  have h0 : (pre ++ bad :: post).length ≠ 0 := by simp
  have hlen : (pre ++ bad :: post).length = pre.length + (post.length + 1) := by simp
  obtain ⟨cid', nid', h⟩ :=
    get_external_events_loop_valid nc ct t pre (post.length + 1) l.core_id l.neuron_id
      (pos + 1 + 1) (bad.1 :: bad.2 :: (post.flatMap (fun e => [e.1, e.2]) ++ rest)) core hv
  have hfl : (pre ++ bad :: post).flatMap (fun e => [e.1, e.2]) ++ rest
      = pre.flatMap (fun e => [e.1, e.2])
          ++ bad.1 :: bad.2 :: (post.flatMap (fun e => [e.1, e.2]) ++ rest) := by
    simp [List.flatMap_append, List.flatMap_cons]
  have hrun : get_external_events l ⟨pos, record_group t (pre ++ bad :: post) ++ rest⟩ core
        ct nc
      = get_external_events_loop nc ct t (post.length + 1) cid' nid'
          ⟨pos + 1 + 1 + 2 * pre.length,
            bad.1 :: bad.2 :: (post.flatMap (fun e => [e.1, e.2]) ++ rest)⟩
          (if t = ct then push_all ct pre core else core) := by
    unfold get_external_events record_group
    simp only [hon, if_true, fread, List.cons_append]
    rw [if_pos h0, hlen, hfl, h]
  have hpms : ((if t = ct then push_all ct pre core else core).getD bad.1 default).core_pms
      = (core.getD bad.1 default).core_pms := by
    split
    · rw [core_pms_push_all]
    · rfl
  rw [hrun]
  constructor
  · intro h1
    rw [(get_external_events_loop_break nc ct t post.length cid' nid' _ bad _ _).1 h1]
    have hp : pos + 1 + 1 + 2 * pre.length + 1 = pos + (2 + 2 * pre.length + 1) := by omega
    rw [hp]
  · intro h1 h2
    rw [(get_external_events_loop_break nc ct t post.length cid' nid' _ bad _ _).2 h1
      (by rw [hpms]; exact h2)]
    have hp : pos + 1 + 1 + 2 * pre.length + 1 + 1 = pos + (2 + 2 * pre.length + 2) := by
      omega
    rw [hp]

/-- The stream after `get_external_events_per_core` on a group whose first invalid id is
`bad`, at index `pre.length`. -/
theorem get_external_events_per_core_stream_at_first_invalid (l : locals) (pos : Nat)
    (rest : List Nat) (core : nsat_core) (ct t : Nat) (pre post : List Nat) (bad : Nat)
    (hv : ∀ x ∈ pre, x < core.core_pms.num_inputs)
    (hbad : core.core_pms.num_inputs ≤ bad) :
    (get_external_events_per_core l
        (some ⟨pos, record_group_per_core t (pre ++ bad :: post) ++ rest⟩) core ct).1
      = some ⟨pos + (2 + pre.length + 1), post ++ rest⟩ := by
  unfold get_external_events_per_core record_group_per_core
  simp only [fread, List.cons_append]
  have h0 : (pre ++ bad :: post).length ≠ 0 := by simp
  rw [if_pos h0]
  have hlen : (pre ++ bad :: post).length = pre.length + (post.length + 1) := by simp
  obtain ⟨nid', h⟩ :=
    get_external_events_per_core_loop_valid ct t pre (post.length + 1) l.neuron_id
      (pos + 1 + 1) (bad :: (post ++ rest)) core hv
  have hfl : pre ++ bad :: post ++ rest = pre ++ bad :: (post ++ rest) := by simp
  rw [hlen, hfl, h, get_external_events_per_core_loop]
  simp only [fread, ge_iff_le]
  have hb : (if t = ct then push_all_per_core ct pre core else core).core_pms.num_inputs
      ≤ bad := by
    split
    · rw [core_pms_push_all_per_core]; exact hbad
    · exact hbad
  rw [if_pos hb]
  have hp : pos + 1 + 1 + pre.length + 1 = pos + (2 + pre.length + 1) := by omega
  rw [hp]

/-- C22, as stated, fails when the invalid entry is the last of its group and it is the
neuron id that is out of range: the group (5, 1, (0, 9)) is consumed whole by
`get_external_events` (4 words, not fewer than `2 + 2 * 1`), the group (5, 1, 9) is
consumed whole by `get_external_events_per_core` (3 words), and what is next in the
stream is the following group, not the inside of the same one. -/
theorem readers_consume_whole_group_when_last_entry_invalid :
    (get_external_events {} ⟨0, record_group 5 [(0, 9)] ++ record_group 6 [(0, 1)]⟩
        two_cores 5 2).1 = ⟨4, record_group 6 [(0, 1)]⟩ ∧
    ¬ (4 < 2 + 2 * [(0, 9)].length) ∧
    (get_external_events_per_core {}
        (some ⟨0, record_group_per_core 5 [9] ++ record_group_per_core 6 [1]⟩)
        one_core 5).1 = some ⟨3, record_group_per_core 6 [1]⟩ ∧
    ¬ (3 < 2 + [9].length) := by
  decide

/-- C22, amended: when the first invalid entry `bad` of a record group is at index
`i = pre.length`, `get_external_events` (external events enabled) has consumed exactly
`2 + 2 * i + 1` words if the core id is out of range and `2 + 2 * i + 2` words if the
neuron id is, and `get_external_events_per_core` exactly `2 + i + 1` words; the words of
the group that follow are left unread and are next in the stream. This is fewer words
than the full group, except when the neuron id of the last entry is the invalid one: then
the whole group has been consumed. -/
theorem readers_cursor_at_first_invalid_entry (l : locals) (pos : Nat) (rest : List Nat)
    (curr_time num_cores time : Nat) (core : List nsat_core) (pre post : List (Nat × Nat))
    (bad : Nat × Nat) (core1 : nsat_core) (pre1 post1 : List Nat) (bad1 : Nat)
    (hon : (core.getD 0 default).core_pms.is_ext_evts_on = true)
    (hpre : ∀ e ∈ pre, valid_entry core num_cores e)
    (hpre1 : ∀ x ∈ pre1, x < core1.core_pms.num_inputs)
    (hbad1 : core1.core_pms.num_inputs ≤ bad1) :
    (num_cores ≤ bad.1 →
      (get_external_events l ⟨pos, record_group time (pre ++ bad :: post) ++ rest⟩ core
          curr_time num_cores).1
        = ⟨pos + (2 + 2 * pre.length + 1),
           bad.2 :: (post.flatMap (fun e => [e.1, e.2]) ++ rest)⟩ ∧
      2 + 2 * pre.length + 1 < 2 + 2 * (pre ++ bad :: post).length) ∧
    (bad.1 < num_cores → (core.getD bad.1 default).core_pms.num_inputs ≤ bad.2 →
      (get_external_events l ⟨pos, record_group time (pre ++ bad :: post) ++ rest⟩ core
          curr_time num_cores).1
        = ⟨pos + (2 + 2 * pre.length + 2), post.flatMap (fun e => [e.1, e.2]) ++ rest⟩ ∧
      (2 + 2 * pre.length + 2 < 2 + 2 * (pre ++ bad :: post).length ↔ post ≠ [])) ∧
    ((get_external_events_per_core l
        (some ⟨pos, record_group_per_core time (pre1 ++ bad1 :: post1) ++ rest⟩) core1
        curr_time).1
      = some ⟨pos + (2 + pre1.length + 1), post1 ++ rest⟩ ∧
      (2 + pre1.length + 1 < 2 + (pre1 ++ bad1 :: post1).length ↔ post1 ≠ [])) := by
  have hs := get_external_events_stream_at_first_invalid l pos rest core curr_time num_cores
    time pre post bad hon hpre
  have hlen : (pre ++ bad :: post).length = pre.length + (post.length + 1) := by simp
  have hlen1 : (pre1 ++ bad1 :: post1).length = pre1.length + (post1.length + 1) := by simp
  have hne : ∀ {α : Type} (xs : List α), 0 < xs.length ↔ xs ≠ [] := by
    intro α xs
    cases xs with
    | nil => simp
    | cons a xs => simp
  refine ⟨?_, ?_, ?_, ?_⟩
  · intro h1
    exact ⟨hs.1 h1, by rw [hlen]; omega⟩
  · intro h1 h2
    refine ⟨hs.2 h1 h2, ?_⟩
    rw [hlen, ← hne]
    omega
  · exact get_external_events_per_core_stream_at_first_invalid l pos rest core1 curr_time
      time pre1 post1 bad1 hpre1 hbad1
  · rw [hlen1, ← hne]
    omega

theorem readers_cursor_at_first_invalid_entry_witness :
    (two_cores.getD 0 default).core_pms.is_ext_evts_on = true ∧
    (∀ e ∈ [(1, 0)], valid_entry two_cores 2 e) ∧
    (∀ x ∈ [1], x < one_core.core_pms.num_inputs) ∧
    one_core.core_pms.num_inputs ≤ 2 ∧
    ((2 ≤ (0, 2).1 →
      (get_external_events {} ⟨0, record_group 5 ([(1, 0)] ++ (0, 2) :: [(0, 1)]) ++ [6]⟩
          two_cores 5 2).1
        = ⟨0 + (2 + 2 * [(1, 0)].length + 1),
           (0, 2).2 :: ([(0, 1)].flatMap (fun e => [e.1, e.2]) ++ [6])⟩ ∧
      2 + 2 * [(1, 0)].length + 1 < 2 + 2 * ([(1, 0)] ++ (0, 2) :: [(0, 1)]).length) ∧
    ((0, 2).1 < 2 → (two_cores.getD (0, 2).1 default).core_pms.num_inputs ≤ (0, 2).2 →
      (get_external_events {} ⟨0, record_group 5 ([(1, 0)] ++ (0, 2) :: [(0, 1)]) ++ [6]⟩
          two_cores 5 2).1
        = ⟨0 + (2 + 2 * [(1, 0)].length + 2), [(0, 1)].flatMap (fun e => [e.1, e.2]) ++ [6]⟩ ∧
      (2 + 2 * [(1, 0)].length + 2 < 2 + 2 * ([(1, 0)] ++ (0, 2) :: [(0, 1)]).length
        ↔ [(0, 1)] ≠ [])) ∧
    ((get_external_events_per_core {}
        (some ⟨0, record_group_per_core 5 ([1] ++ 2 :: [0]) ++ [6]⟩) one_core 5).1
      = some ⟨0 + (2 + [1].length + 1), [0] ++ [6]⟩ ∧
      (2 + [1].length + 1 < 2 + ([1] ++ 2 :: [0]).length ↔ [0] ≠ []))) ∧
    (get_external_events {} ⟨0, record_group 5 ([(1, 0)] ++ (0, 2) :: [(0, 1)]) ++ [6]⟩
        two_cores 5 2).1 = ⟨6, [0, 1, 6]⟩ ∧
    (get_external_events {} ⟨0, record_group 5 ([(1, 0)] ++ (7, 0) :: [(0, 1)]) ++ [6]⟩
        two_cores 5 2).1 = ⟨5, [0, 0, 1, 6]⟩ :=
  ⟨by decide, by decide, by decide, by decide,
   readers_cursor_at_first_invalid_entry {} 0 [6] 5 2 5 two_cores [(1, 0)] [(0, 1)] (0, 2)
     one_core [1] [0] 2 (by decide) (by decide) (by decide) (by decide),
   by decide, by decide⟩

/-! ## Agreement of the two readers on a single core -/

/-- A sequence of neuron ids is a run of valid ids, followed either by nothing or by a
first invalid id and the rest. -/
theorem split_at_first_invalid (num_inputs : Nat) (ids : List Nat) :
    ∃ pre, (∀ x ∈ pre, x < num_inputs) ∧
      (ids = pre ∨ ∃ bad post, ids = pre ++ bad :: post ∧ num_inputs ≤ bad) := by
  induction ids with
  | nil => exact ⟨[], by simp, Or.inl rfl⟩
  | cons a ids ih =>
    by_cases ha : a < num_inputs
    · obtain ⟨pre, hpre, h⟩ := ih
      refine ⟨a :: pre, ?_, ?_⟩
      · intro x hx
        rcases List.mem_cons.mp hx with rfl | hx
        · exact ha
        · exact hpre x hx
      · rcases h with h | ⟨bad, post, h, hb⟩
        · exact Or.inl (by rw [h])
        · exact Or.inr ⟨bad, post, by rw [h]; rfl, hb⟩
    · exact ⟨[], by simp, Or.inr ⟨a, ids, rfl, Nat.le_of_not_lt ha⟩⟩

/-- On a single core, pushing entries that all address core 0 is pushing their neuron
ids on that core. -/
theorem push_all_single_core (ct : Nat) (ids : List Nat) (c : nsat_core) :
    push_all ct (ids.map fun n => (0, n)) [c] = [push_all_per_core ct ids c] := by
  induction ids generalizing c with
  | nil => rfl
  | cons n ids ih =>
    rw [List.map_cons, push_all_cons, push_all_per_core_cons, ← ih]
    rfl

theorem valid_entry_single_core (c : nsat_core) (ids : List Nat)
    (h : ∀ x ∈ ids, x < c.core_pms.num_inputs) :
    ∀ e ∈ ids.map (fun n => ((0 : Nat), n)), valid_entry [c] 1 e := by
  intro e he
  obtain ⟨n, hn, rfl⟩ := List.mem_map.mp he
  exact ⟨Nat.zero_lt_one, h n hn⟩

/-- C23: for one core with external events enabled and a stream that is not `NULL`,
`get_external_events` with `num_cores = 1` on the group
`(time, count, (0, n_1), …, (0, n_count))` leaves the core, hence its pending queue, as
`get_external_events_per_core` leaves it on the group `(time, count, n_1, …, n_count)`,
for every `time`, `curr_time` and sequence of neuron ids, valid or not. -/
theorem readers_agree_on_single_core (l l' : locals) (pos pos' : Nat)
    (rest rest' : List Nat) (c : nsat_core) (curr_time time : Nat) (ids : List Nat)
    (hon : c.core_pms.is_ext_evts_on = true) :
    (get_external_events l ⟨pos, record_group time (ids.map fun n => (0, n)) ++ rest⟩ [c]
        curr_time 1).2
      = [(get_external_events_per_core l'
          (some ⟨pos', record_group_per_core time ids ++ rest'⟩) c curr_time).2] ∧
    ((get_external_events l ⟨pos, record_group time (ids.map fun n => (0, n)) ++ rest⟩ [c]
        curr_time 1).2.getD 0 default).ext_events
      = (get_external_events_per_core l'
          (some ⟨pos', record_group_per_core time ids ++ rest'⟩) c curr_time).2.ext_events := by
  have hon' : (([c] : List nsat_core).getD 0 default).core_pms.is_ext_evts_on = true := hon
  have hmain : (get_external_events l
        ⟨pos, record_group time (ids.map fun n => (0, n)) ++ rest⟩ [c] curr_time 1).2
      = [(get_external_events_per_core l'
          (some ⟨pos', record_group_per_core time ids ++ rest'⟩) c curr_time).2] := by
    obtain ⟨pre, hpre, h | ⟨bad, post, h, hbad⟩⟩ := split_at_first_invalid
      c.core_pms.num_inputs ids
    · subst h
      rw [get_external_events_valid_eq l pos rest [c] curr_time 1 time _ hon'
            (valid_entry_single_core c ids hpre),
          get_external_events_per_core_valid_eq l' pos' rest' c curr_time time ids hpre]
      by_cases ht : time = curr_time
      · simp only [ht, if_true]
        exact push_all_single_core curr_time ids c
      · simp only [ht, if_false]
    · subst h
      have hnot : ¬ valid_entry [c] 1 ((0 : Nat), bad) := by
        intro hv
        exact Nat.not_le_of_lt hv.2 hbad
      rw [List.map_append, List.map_cons,
          get_external_events_first_invalid l pos rest [c] curr_time 1 time _ _ _ hon'
            (valid_entry_single_core c pre hpre) hnot,
          get_external_events_per_core_first_invalid l' pos' rest' c curr_time time pre post
            bad hpre hbad]
      by_cases ht : time = curr_time
      · simp only [ht, if_true]
        exact push_all_single_core curr_time pre c
      · simp only [ht, if_false]
  exact ⟨hmain, by rw [hmain]; rfl⟩

theorem readers_agree_on_single_core_witness :
    one_core.core_pms.is_ext_evts_on = true ∧
    ((get_external_events {} ⟨0, record_group 5 ([1, 0, 7, 1].map fun n => (0, n)) ++ [6]⟩
        [one_core] 5 1).2
      = [(get_external_events_per_core {}
          (some ⟨0, record_group_per_core 5 [1, 0, 7, 1] ++ [6]⟩) one_core 5).2] ∧
    ((get_external_events {} ⟨0, record_group 5 ([1, 0, 7, 1].map fun n => (0, n)) ++ [6]⟩
        [one_core] 5 1).2.getD 0 default).ext_events
      = (get_external_events_per_core {}
          (some ⟨0, record_group_per_core 5 [1, 0, 7, 1] ++ [6]⟩) one_core 5).2.ext_events) ∧
    (get_external_events_per_core {}
        (some ⟨0, record_group_per_core 5 [1, 0, 7, 1] ++ [6]⟩) one_core 5).2.ext_events
      = [(1, 5, 1), (0, 5, 1)] :=
  ⟨by decide,
   readers_agree_on_single_core {} {} 0 0 [6] [6] one_core 5 5 [1, 0, 7, 1] (by decide),
   by decide⟩

/-! ## The order of the records of the synaptic strength monitor -/

/-- C21, as stated, fails: with an external synapse in state 1 and an NSAT synapse in
state 0, the record of the external neuron (state 1) is written before the record of the
NSAT neuron (state 0), while the order state by state puts the NSAT record first. -/
theorem strength_monitor_is_not_state_by_state :
    update_synaptic_strength_monitor_file two_state_core []
      = strength_fields (5, 0, 7, 1, 43) ++ strength_fields (5, 2, 2, 0, 42) ∧
    state_by_state_order two_state_core
      = strength_fields (5, 2, 2, 0, 42) ++ strength_fields (5, 0, 7, 1, 43) ∧
    update_synaptic_strength_monitor_file two_state_core []
      ≠ [] ++ state_by_state_order two_state_core := by
  decide

/-- C21, amended: the records `update_synaptic_strength_monitor_file` emits are ordered
kind by kind: first, for each state `k` ascending, the records of the external presynaptic
neurons for state `k` (neuron index ascending, synapse-list order); then, for each state
`k` ascending, the records of the NSAT presynaptic neurons for state `k`. Every NSAT
record comes after every external record; with at most one state this is the order state
by state. -/
theorem strength_monitor_order (c : nsat_core) (fw : List field) :
    update_synaptic_strength_monitor_file c fw
      = fw ++ ((List.range c.core_pms.num_states).flatMap (ext_state_block c)
          ++ (List.range c.core_pms.num_states).flatMap (nsat_state_block c)) ∧
    (c.core_pms.num_states ≤ 1 →
      update_synaptic_strength_monitor_file c fw = fw ++ state_by_state_order c) := by
  have h : update_synaptic_strength_monitor_file c fw
      = fw ++ ((List.range c.core_pms.num_states).flatMap (ext_state_block c)
          ++ (List.range c.core_pms.num_states).flatMap (nsat_state_block c)) := by
    rw [update_synaptic_strength_monitor_file_unrolled]
    rfl
  refine ⟨h, ?_⟩
  intro hs
  rw [h]
  unfold state_by_state_order
  have h01 : c.core_pms.num_states = 0 ∨ c.core_pms.num_states = 1 := by omega
  rcases h01 with h0 | h1
  · rw [h0]
    rfl
  · rw [h1]
    simp [List.range_succ]

end NSAT
